import Mathlib

/-!
# Verification of the dbcollection cache registry and dataset loader

A shallow embedding of `dbcollection/cache.py` (the JSON-file-backed cache
registry, class `CacheManager`) and `dbcollection/utils/loader.py` (the HDF5
field accessor, class `DatasetLoader`), together with proofs about the
behaviour the specification ascribes to them.

Modelling conventions:
* Python/JSON values are the inductive `PyVal`; Python `dict`s become
  association lists kept in insertion order, with lookup/assignment/iteration
  functions mirroring CPython's ordered-dict semantics (assignment to an
  existing key keeps its position, a fresh key is appended at the back).
* Exceptions become an explicit `Except PyErr` result.  Methods that mutate
  `self.data` or the file system are functions over a `World` record; a raised
  exception carries the world as it is at the moment of the raise, so that
  "mutation before the exception" stays observable.
* The `json` module is modelled by an executable serializer (`jsonDump`,
  following `json.dump` with its default separators and `ensure_ascii=False`)
  and an executable recursive-descent parser (`jsonLoad`, following
  `json.load` in strict mode).  Numbers are modelled as integers: the registry
  schema contains only strings and objects, and float semantics are outside
  the scope of this embedding (the parser rejects float literals).
-/

/-- A Python value as it can appear in the registry document: `None`, `bool`,
`int`, `str`, `list`, and `dict` with string keys in insertion order. -/
inductive PyVal where
  | null : PyVal
  | bool : Bool → PyVal
  | int : Int → PyVal
  | str : String → PyVal
  | list : List PyVal → PyVal
  | dict : List (String × PyVal) → PyVal

/-- The keys of a Python dict, in insertion order (`d.keys()`). -/
def dictKeys (d : List (String × PyVal)) : List String := d.map Prod.fst

/-- Dictionary lookup, first match (the only match in a real dict). -/
def dictGet? (d : List (String × PyVal)) (k : String) : Option PyVal :=
  match d with
  | [] => none
  | (k', v) :: tl => if k' = k then some v else dictGet? tl k

/-- `d[k] = v`: overwrite in place if the key exists (keeping its position),
otherwise append at the back — CPython's insertion-order semantics. -/
def dictSet (d : List (String × PyVal)) (k : String) (v : PyVal) :
    List (String × PyVal) :=
  match d with
  | [] => [(k, v)]
  | (k', v') :: tl => if k' = k then (k', v) :: tl else (k', v') :: dictSet tl k v

/-- `d.pop(k)`: drop the entry for `k` (the caller checks presence). -/
def dictPop (d : List (String × PyVal)) (k : String) : List (String × PyVal) :=
  match d with
  | [] => []
  | (k', v') :: tl => if k' = k then tl else (k', v') :: dictPop tl k

/-- `d.update(other)`: assign every entry of `other` into `d`, in order. -/
def dictUpdate (d other : List (String × PyVal)) : List (String × PyVal) :=
  other.foldl (fun acc e => dictSet acc e.1 e.2) d

/-- A raised Python exception, by class (plus the message where a claim
depends on it). -/
inductive PyErr where
  | keyError : PyErr
  | attributeError : PyErr
  | typeError : PyErr
  | valueError : String → PyErr
  | indexError : PyErr
  | osError : Int → PyErr
  | ioError : PyErr
  | exception : String → PyErr
deriving DecidableEq, Repr

/-- Subscripting `v[k]` with a string key: a dict lookup (`KeyError` when the
key is absent), a `TypeError` on any non-dict value. -/
def pyGetItem (v : PyVal) (k : String) : Except PyErr PyVal :=
  match v with
  | .dict d =>
    match dictGet? d k with
    | some x => .ok x
    | none => .error .keyError
  | _ => .error .typeError

/-- Subscripting with the result of `get_category`, which may be `None`:
`d[None]` raises `KeyError` (registry keys are all strings). -/
def pyGetItemOpt (v : PyVal) (k : Option String) : Except PyErr PyVal :=
  match v, k with
  | .dict _, none => .error .keyError
  | _, none => .error .typeError
  | _, some s => pyGetItem v s

/-- `v.keys()`: only dicts have it (`AttributeError` otherwise). -/
def pyKeysOf (v : PyVal) : Except PyErr (List String) :=
  match v with
  | .dict d => .ok (dictKeys d)
  | _ => .error .attributeError

/-- `k in v` for a dict (membership in the keys); `TypeError` on the
non-container values the registry can hold. -/
def pyContains (v : PyVal) (k : String) : Except PyErr Bool :=
  match v with
  | .dict d => .ok (decide (k ∈ dictKeys d))
  | _ => .error .typeError

/-- `try: e  except KeyError: return b` -/
def catchKeyError (e : Except PyErr Bool) (b : Bool) : Except PyErr Bool :=
  match e with
  | .error .keyError => .ok b
  | r => r

/-- The string a value must be for `os.remove` (`TypeError` otherwise). -/
def pyAsStr (v : PyVal) : Except PyErr String :=
  match v with
  | .str s => .ok s
  | _ => .error .typeError

example : dictSet [("a", .int 1), ("b", .int 2)] "a" (.int 9)
    = [("a", .int 9), ("b", .int 2)] := rfl

example : dictSet [("a", .int 1)] "c" (.int 3)
    = [("a", .int 1), ("c", .int 3)] := rfl

example : dictUpdate [("x", .int 1), ("y", .int 2)] [("y", .int 5), ("z", .int 6)]
    = [("x", .int 1), ("y", .int 5), ("z", .int 6)] := rfl

/-! ## The `json` module: serialization (`json.dump` with `ensure_ascii=False`,
default separators `", "` and `": "`) -/

/-- An opening brace character (written by escape code throughout). -/
def lbrace : Char := '\x7b'

/-- A closing brace character. -/
def rbrace : Char := '\x7d'

/-- Lowercase hexadecimal digit for `d < 16` (as in `'\u%04x' % code`). -/
def hexDigitChar (d : Nat) : Char :=
  if d < 10 then Char.ofNat (48 + d) else Char.ofNat (97 + (d - 10))

/-- The decimal digit character for `d < 10`. -/
def digitChar10 (d : Nat) : Char := Char.ofNat (48 + d)

/-- How `json.dump` escapes one character of a string under
`ensure_ascii=False`: backslash, quote and the five shorthand control
characters get two-character escapes, every other control character becomes
`\u00XX`, and everything else passes through verbatim. -/
def escapeChar (c : Char) : List Char :=
  if c = '\\' then ['\\', '\\']
  else if c = '"' then ['\\', '"']
  else if c.toNat = 8 then ['\\', 'b']
  else if c.toNat = 12 then ['\\', 'f']
  else if c = '\n' then ['\\', 'n']
  else if c = '\r' then ['\\', 'r']
  else if c = '\t' then ['\\', 't']
  else if c.toNat < 32 then
    ['\\', 'u', '0', '0', hexDigitChar (c.toNat / 16), hexDigitChar (c.toNat % 16)]
  else [c]

/-- Escape a whole string body. -/
def escStr (cs : List Char) : List Char := cs.flatMap escapeChar

/-- Fuel-driven digit rendering (structural, so it evaluates by `rfl`);
`n` itself is always enough fuel since `n / 10` shrinks below the fuel. -/
def natCharsAux : Nat → Nat → List Char
  | 0, n => [digitChar10 n]
  | f + 1, n =>
    if n < 10 then [digitChar10 n]
    else natCharsAux f (n / 10) ++ [digitChar10 (n % 10)]

/-- Decimal digits of `n`, most significant first, no leading zeros
(`"0"` for zero) — the characters of `repr(n)` for a non-negative int. -/
def natChars (n : Nat) : List Char := natCharsAux n n

/-- The characters of `repr(i)` for a Python int. -/
def intChars (i : Int) : List Char :=
  if i < 0 then '-' :: natChars i.natAbs else natChars i.toNat

mutual
/-- Serialize one value, exactly as `json.dump` renders it. -/
def serVal : PyVal → List Char
  | .null => ['n', 'u', 'l', 'l']
  | .bool false => ['f', 'a', 'l', 's', 'e']
  | .bool true => ['t', 'r', 'u', 'e']
  | .int i => intChars i
  | .str s => '"' :: (escStr s.data ++ ['"'])
  | .list [] => ['[', ']']
  | .list (x :: xs) => '[' :: ((serVal x ++ serValTail xs) ++ [']'])
  | .dict [] => [lbrace, rbrace]
  | .dict (e :: es) => lbrace :: ((serEntry e ++ serEntryTail es) ++ [rbrace])

/-- The item separator `", "` before each further array element. -/
def serValTail : List PyVal → List Char
  | [] => []
  | x :: xs => ',' :: ' ' :: (serVal x ++ serValTail xs)

/-- One object member: `"key": value`. -/
def serEntry : String × PyVal → List Char
  | (k, v) => '"' :: (escStr k.data ++ ('"' :: ':' :: ' ' :: serVal v))

/-- The item separator `", "` before each further object member. -/
def serEntryTail : List (String × PyVal) → List Char
  | [] => []
  | e :: es => ',' :: ' ' :: (serEntry e ++ serEntryTail es)
end

/-- `json.dump(v, f)`: the text written to the file. -/
def jsonDump (v : PyVal) : String := String.mk (serVal v)

example : jsonDump (.dict [("a", .int 1), ("b", .list [.null, .bool true])])
    = "\x7b\"a\": 1, \"b\": [null, true]\x7d" := rfl

/-! ## The `json` module: parsing (`json.load`, strict mode)

The parser recurses on an explicit fuel so that it is structural and
evaluates by `rfl`/`decide`.  Two deliberate modelling boundaries against
CPython's decoder: float literals are rejected (the registry schema holds no
numbers at all, and float semantics are out of scope), and `\uXXXX` escapes
in the surrogate range are rejected (lone surrogates are not representable
as Lean characters; the serializer never emits them). -/

/-- The whitespace characters `json` skips between tokens. -/
def isWsChar (c : Char) : Bool := c = ' ' || c = '\t' || c = '\n' || c = '\r'

/-- Drop token-separating whitespace. -/
def skipWs : List Char → List Char
  | c :: cs => if isWsChar c then skipWs cs else c :: cs
  | [] => []

/-- An ASCII decimal digit. -/
def isDig (c : Char) : Bool := 48 ≤ c.toNat && c.toNat ≤ 57

/-- Consume a run of digits, accumulating the value read so far. -/
def grabDigits (acc : Nat) : List Char → Nat × List Char
  | c :: cs =>
    if isDig c then grabDigits (acc * 10 + (c.toNat - 48)) cs else (acc, c :: cs)
  | [] => (acc, [])

/-- A character that would extend a number literal (digit, fraction or
exponent marker); a complete int must not be followed by one, and a float
literal (which the model rejects) announces itself with `.`/`e`/`E`. -/
def extendsNum : List Char → Bool
  | c :: _ => isDig c || c = '.' || c = 'e' || c = 'E'
  | [] => false

/-- The value of one hexadecimal digit, either case. -/
def hexVal (c : Char) : Option Nat :=
  if 48 ≤ c.toNat && c.toNat ≤ 57 then some (c.toNat - 48)
  else if 97 ≤ c.toNat && c.toNat ≤ 102 then some (c.toNat - 87)
  else if 65 ≤ c.toNat && c.toNat ≤ 70 then some (c.toNat - 55)
  else none

/-- Decode `\uXXXX`: four hex digits, rejecting the surrogate range. -/
def decodeU (a b c d : Char) : Option Char := do
  let va ← hexVal a
  let vb ← hexVal b
  let vc ← hexVal c
  let vd ← hexVal d
  let n := ((va * 16 + vb) * 16 + vc) * 16 + vd
  if 55296 ≤ n ∧ n < 57344 then none else some (Char.ofNat n)

/-- The single-character escapes `json` accepts after a backslash. -/
def unescapeShort (c : Char) : Option Char :=
  if c = '"' then some '"'
  else if c = '\\' then some '\\'
  else if c = '/' then some '/'
  else if c = 'b' then some (Char.ofNat 8)
  else if c = 'f' then some (Char.ofNat 12)
  else if c = 'n' then some '\n'
  else if c = 'r' then some '\r'
  else if c = 't' then some '\t'
  else none

/-- Parse a string body after the opening quote: stop at an unescaped quote,
decode escapes, and (strict mode) reject raw control characters. -/
def parseStrBody (acc : List Char) : List Char → Option (List Char × List Char)
  | c :: cs =>
    if c = '"' then some (acc.reverse, cs)
    else if c = '\\' then
      match cs with
      | 'u' :: a :: b :: c2 :: d :: cs2 =>
        match decodeU a b c2 d with
        | some ch => parseStrBody (ch :: acc) cs2
        | none => none
      | e :: cs2 =>
        match unescapeShort e with
        | some ch => parseStrBody (ch :: acc) cs2
        | none => none
      | [] => none
    else if c.toNat < 32 then none
    else parseStrBody (c :: acc) cs
  | [] => none

/-- Require the next characters to be exactly `expected`. -/
def expectChars (expected : List Char) (s : List Char) : Option (List Char) :=
  match expected, s with
  | [], _ => some s
  | e :: es, c :: cs => if c = e then expectChars es cs else none
  | _ :: _, [] => none

/-- Build a dict from parsed members the way `dict(pairs)` does: a repeated
key keeps its first position and its last value. -/
def dictOfPairs (ps : List (String × PyVal)) : List (String × PyVal) :=
  ps.foldl (fun d e => dictSet d e.1 e.2) []

mutual
/-- Parse one JSON value (leading whitespace allowed). -/
def parseVal : Nat → List Char → Option (PyVal × List Char)
  | 0, _ => none
  | f + 1, s =>
    match skipWs s with
    | [] => none
    | c :: r =>
      if c = 'n' then (expectChars ['u', 'l', 'l'] r).map (fun r' => (.null, r'))
      else if c = 't' then (expectChars ['r', 'u', 'e'] r).map (fun r' => (.bool true, r'))
      else if c = 'f' then (expectChars ['a', 'l', 's', 'e'] r).map (fun r' => (.bool false, r'))
      else if c = '"' then
        (parseStrBody [] r).map (fun p => (.str (String.mk p.1), p.2))
      else if c = '[' then
        match skipWs r with
        | c2 :: r2 =>
          if c2 = ']' then some (.list [], r2)
          else
            (parseElems f (c2 :: r2)).map (fun p => (.list p.1, p.2))
        | [] => none
      else if c = lbrace then
        match skipWs r with
        | c2 :: r2 =>
          if c2 = rbrace then some (.dict [], r2)
          else
            (parseMembs f (c2 :: r2)).map (fun p => (.dict (dictOfPairs p.1), p.2))
        | [] => none
      else if c = '-' then
        match r with
        | c2 :: r2 =>
          if isDig c2 then
            let p := grabDigits (c2.toNat - 48) r2
            if extendsNum p.2 then none else some (.int (-(p.1 : Int)), p.2)
          else none
        | [] => none
      else if isDig c then
        let p := grabDigits (c.toNat - 48) r
        if extendsNum p.2 then none else some (.int (p.1 : Int), p.2)
      else none

/-- Parse one or more comma-separated array elements up to the closing
bracket (the empty array is handled in `parseVal`). -/
def parseElems : Nat → List Char → Option (List PyVal × List Char)
  | 0, _ => none
  | f + 1, s =>
    match parseVal f s with
    | none => none
    | some (v, r) =>
      match skipWs r with
      | ',' :: r2 =>
        (parseElems f r2).map (fun p => (v :: p.1, p.2))
      | c :: r2 =>
        if c = ']' then some ([v], r2) else none
      | [] => none

/-- Parse one or more `"key": value` members up to the closing brace
(the empty object is handled in `parseVal`). -/
def parseMembs : Nat → List Char → Option (List (String × PyVal) × List Char)
  | 0, _ => none
  | f + 1, s =>
    match skipWs s with
    | c :: r =>
      if c = '"' then
        match parseStrBody [] r with
        | none => none
        | some (k, r1) =>
          match skipWs r1 with
          | ':' :: r2 =>
            match parseVal f r2 with
            | none => none
            | some (v, r3) =>
              match skipWs r3 with
              | ',' :: r4 =>
                (parseMembs f r4).map (fun p => ((String.mk k, v) :: p.1, p.2))
              | c2 :: r4 =>
                if c2 = rbrace then some ([(String.mk k, v)], r4) else none
              | [] => none
          | _ => none
      else none
    | [] => none
end

/-- `json.load`: parse a complete document; trailing whitespace only. -/
def jsonLoad (text : String) : Option PyVal :=
  match parseVal (text.data.length + 1) text.data with
  | some (v, r) => if (skipWs r).isEmpty then some v else none
  | none => none

example : jsonLoad "\x7b\"a\": 1, \"b\": [null, true]\x7d"
    = some (.dict [("a", .int 1), ("b", .list [.null, .bool true])]) := rfl

example : jsonLoad (jsonDump (.dict [("info", .dict [("x", .str "/home")]), ("dataset", .dict [])]))
    = some (.dict [("info", .dict [("x", .str "/home")]), ("dataset", .dict [])]) := rfl

example : jsonLoad "[1.5]" = none := rfl

example : jsonLoad (jsonDump (.str "a\n\x7b\"")) = some (.str "a\n\x7b\"") := rfl

/-! ## The world: in-memory document, registry file, disk paths

`os.path.join` is modelled as joining with `/` (the second component is
always a relative name in this code).  `os.remove` succeeds when the path
exists and raises `OSError(ENOENT)` otherwise; other OS failures are outside
the deterministic model. -/

/-- `os.path.join(a, b)` for a relative `b`. -/
def osPathJoin (a b : String) : String := a ++ "/" ++ b

/-- The paths `CacheManager.setup_paths` derives from the home directory. -/
structure Config where
  home : String

/-- `self.cache_fname`: `~/.dbcollection.json`. -/
def Config.cache_fname (cfg : Config) : String := osPathJoin cfg.home ".dbcollection.json"

/-- `self.default_cache_dir`: `~/dbcollection`. -/
def Config.default_cache_dir (cfg : Config) : String := osPathJoin cfg.home "dbcollection"

/-- `self.default_data_dir`: the same directory as the cache default. -/
def Config.default_data_dir (cfg : Config) : String := cfg.default_cache_dir

/-- Text files by path. -/
def fsGet (fs : List (String × String)) (p : String) : Option String :=
  match fs with
  | [] => none
  | (p', t) :: tl => if p' = p then some t else fsGet tl p

/-- Overwrite (or create) the file at `p`. -/
def fsSet (fs : List (String × String)) (p t : String) : List (String × String) :=
  match fs with
  | [] => [(p, t)]
  | (p', t') :: tl => if p' = p then (p', t) :: tl else (p', t') :: fsSet tl p t

/-- The mutable state a `CacheManager` touches: the in-memory document
`self.data`, the text files (the registry file lives here), and the set of
other disk paths `os.remove` can delete. -/
structure World where
  data : PyVal
  fs : List (String × String)
  disk : List String

namespace CacheManager

/-- `empty_data(self)`: the fresh document template. -/
def empty_data (cfg : Config) : PyVal :=
  .dict [("info", .dict [("default_cache_dir", .str cfg.default_cache_dir),
                         ("default_data_dir", .str cfg.default_data_dir)]),
         ("dataset", .dict [])]

/-- `write_data_cache(self, data, fname=None)`: serialize the full document
over the target file (`fname or self.cache_fname`, so an empty-string
`fname` also falls back to the default). -/
def write_data_cache (cfg : Config) (w : World) (data : PyVal)
    (fname : Option String) : World :=
  let filename := match fname with
    | some f => if f = "" then cfg.cache_fname else f
    | none => cfg.cache_fname
  { w with fs := fsSet w.fs filename (jsonDump data) }

/-- `read_data_cache_file(self)`: open and `json.load` the registry file;
a missing file is the propagated `IOError`, undecodable text the decoder's
`ValueError`. -/
def read_data_cache_file (cfg : Config) (w : World) : Except PyErr PyVal :=
  match fsGet w.fs cfg.cache_fname with
  | none => .error .ioError
  | some text =>
    match jsonLoad text with
    | some v => .ok v
    | none => .error (.valueError "Expecting value")

/-- `read_data_cache(self)`: the file when it exists, the template otherwise. -/
def read_data_cache (cfg : Config) (w : World) : Except PyErr PyVal :=
  match fsGet w.fs cfg.cache_fname with
  | some _ => read_data_cache_file cfg w
  | none => .ok (empty_data cfg)

/-- `get_category(self, name)`: scan the categories of `self.data['dataset']`
in insertion order for one whose keys contain `name`; `None` when no
category matches.  The scan subscripts each category value and asks for its
keys, so a non-dict category value raises `AttributeError`. -/
def get_category_scan (name : String) :
    List (String × PyVal) → Except PyErr (Option String)
  | [] => .ok none
  | (cat, v) :: tl =>
    match v with
    | .dict catd =>
      if name ∈ dictKeys catd then .ok (some cat) else get_category_scan name tl
    | _ => .error .attributeError

/-- `get_category(self, name)` (entry point: `self.data['dataset']` first). -/
def get_category (data : PyVal) (name : String) : Except PyErr (Option String) := do
  let ds ← pyGetItem data "dataset"
  match ds with
  | .dict dsd => get_category_scan name dsd
  | _ => .error .attributeError

/-- `check_dataset_name(self, name)` with its `except KeyError: False`. -/
def check_dataset_name (data : PyVal) (name : String) : Except PyErr Bool :=
  catchKeyError
    (do
      let ds ← pyGetItem data "dataset"
      let ks ← pyKeysOf ds
      pure (decide (name ∈ ks)))
    false

/-- `exists_dataset(self, name)`: `name in self.data['dataset'][category]`
guarded by `except KeyError: return False` (the `None` category subscript is
the swallowed `KeyError`). -/
def exists_dataset (data : PyVal) (name : String) : Except PyErr Bool :=
  catchKeyError
    (do
      let ds ← pyGetItem data "dataset"
      let cat ← get_category data name
      let catv ← pyGetItemOpt ds cat
      pyContains catv name)
    false

/-- `exists(self, name, task)`: task membership in the record's
`cache_files`, with the same blanket `except KeyError: return False`. -/
def exists_task (data : PyVal) (name task : String) : Except PyErr Bool :=
  catchKeyError
    (do
      let ds ← pyGetItem data "dataset"
      let cat ← get_category data name
      let catv ← pyGetItemOpt ds cat
      let rcd ← pyGetItem catv name
      let cf ← pyGetItem rcd "cache_files"
      pyContains cf task)
    false

/-- `get_data_from_field(self, name, field)` (its `except KeyError: raise`
is transparent). -/
def get_data_from_field (data : PyVal) (name field : String) : Except PyErr PyVal := do
  let ds ← pyGetItem data "dataset"
  let cat ← get_category data name
  let catv ← pyGetItemOpt ds cat
  let rcd ← pyGetItem catv name
  pyGetItem rcd field

/-- `get_dataset_storage_paths(self, name)`: the recorded paths when the
dataset exists, otherwise defaults synthesized under the configured roots. -/
def get_dataset_storage_paths (cfg : Config) (data : PyVal) (name : String) :
    Except PyErr PyVal := do
  let e ← exists_dataset data name
  if e then do
    let cd ← get_data_from_field data name "cache_dir"
    let dd ← get_data_from_field data name "data_dir"
    pure (.dict [("cache_dir", cd), ("data_dir", dd)])
  else
    pure (.dict [("cache_dir", .str (osPathJoin (osPathJoin cfg.default_cache_dir name) "cache")),
                 ("data_dir", .str (osPathJoin (osPathJoin cfg.default_data_dir name) "data"))])

/-- `get_dataset_storage_paths` as the method call: reads only, so the world
comes back untouched on every path. -/
def storage_paths_call (cfg : Config) (w : World) (name : String) :
    Except (PyErr × World) (PyVal × World) :=
  match get_dataset_storage_paths cfg w.data name with
  | .ok v => .ok (v, w)
  | .error e => .error (e, w)

/-- `get_dataset_data(self, name)`: the record, or the module's own
domain error naming the dataset when any lookup step raises `KeyError`. -/
def get_dataset_data (data : PyVal) (name : String) : Except PyErr PyVal :=
  match (do
      let ds ← pyGetItem data "dataset"
      let cat ← get_category data name
      let catv ← pyGetItemOpt ds cat
      pyGetItem catv name : Except PyErr PyVal) with
  | .error .keyError =>
    .error (.exception ("Dataset " ++ name ++ " does not exist in the cache file."))
  | r => r

/-- `get_cache_path(self, name, task)`. -/
def get_cache_path (data : PyVal) (name task : String) : Except PyErr PyVal := do
  let cache_data ← get_dataset_data data name
  let cf ← pyGetItem cache_data "cache_files"
  pyGetItem cf task

end CacheManager

/-! ## CacheManager: mutating methods

Raised exceptions carry the world as of the raise.  In `add_data` every
raise point (the subscripts, the `'cached_files'` lookups, the `.update`
attribute access) happens before the first assignment into `self.data`, so
an error leaves the document exactly as it was; the `Except`-style
definitions below return the untouched input in that case, matching the
in-place Python code observationally. -/

/-- `os.remove(path)` on the deterministic disk model: delete the existing
path or raise `OSError` with `errno.ENOENT` (= 2). -/
def osRemove (w : World) (p : String) : Except PyErr World :=
  if p ∈ w.disk then .ok { w with disk := w.disk.erase p } else .error (.osError 2)

/-- The module's repeated idiom `try: os.remove(p) except OSError as err:
if err.errno != errno.ENOENT: raise`. -/
def removeSkipMissing (w : World) (p : String) : Except PyErr World :=
  match osRemove w p with
  | .ok w' => .ok w'
  | .error (.osError eno) => if eno = 2 then .ok w else .error (.osError eno)
  | .error e => .error e

namespace CacheManager

/-- `add_data(self, category, name, new_info)`: the upsert step.  On the
"category and name both present" path it merges the old record's
`'cached_files'` with the incoming `'cached_files'` — note the key spelled
with a `d`, while `update` builds records under `'cache_files'`, so this
path raises `KeyError` against every record `update` ever stored. -/
def add_data (data : PyVal) (category name : String) (new_info : PyVal) :
    Except PyErr PyVal :=
  match data with
  | .dict dd =>
    match dictGet? dd "dataset" with
    | none => .error .keyError
    | some ds =>
      match ds with
      | .dict dsd =>
        if category ∈ dictKeys dsd then
          match dictGet? dsd category with
          | some catv =>
            match catv with
            | .dict catd =>
              if name ∈ dictKeys catd then
                match dictGet? catd name with
                | some old_info => do
                  let cache_files ← pyGetItem old_info "cached_files"
                  let cfd ← (match cache_files with
                    | .dict d => Except.ok d
                    | _ => Except.error PyErr.attributeError)
                  let newcf ← pyGetItem new_info "cached_files"
                  let newcfd ← (match newcf with
                    | .dict d => Except.ok d
                    | _ => Except.error PyErr.typeError)
                  let merged := dictUpdate cfd newcfd
                  let newd ← (match new_info with
                    | .dict d => Except.ok d
                    | _ => Except.error PyErr.typeError)
                  let new_info2 := PyVal.dict (dictSet newd "cached_files" (.dict merged))
                  pure (PyVal.dict (dictSet dd "dataset"
                    (.dict (dictSet dsd category (.dict (dictSet catd name new_info2))))))
                | none => .error .keyError
              else
                pure (PyVal.dict (dictSet dd "dataset"
                  (.dict (dictSet dsd category (.dict (dictSet catd name new_info))))))
            | _ => .error .attributeError
          | none => .error .keyError
        else
          pure (PyVal.dict (dictSet dd "dataset"
            (.dict (dictSet dsd category (.dict (dictSet [] name new_info))))))
      | _ => .error .attributeError
  | _ => .error .typeError

/-- `update(self, name, category, data_dir, cache_dir, cache_info)`: build
the record dict (under the key `'cache_files'`), run `add_data`, then
persist the whole document.  `add_data` raises only before its first
mutation, so the error world is the input world. -/
def update (cfg : Config) (w : World) (name category data_dir cache_dir : String)
    (cache_info : PyVal) : Except (PyErr × World) World :=
  let new_info_dict : PyVal :=
    .dict [("data_dir", .str data_dir), ("cache_dir", .str cache_dir),
           ("cache_files", cache_info)]
  match add_data w.data category name new_info_dict with
  | .error e => .error (e, w)
  | .ok data2 => .ok (write_data_cache cfg { w with data := data2 } data2 none)

/-- `change_field(self, name, field, val)`: one nested in-place assignment
`self.data['dataset'][self.get_category(name)][name][field] = val`; the
`except KeyError: raise` around it is transparent.  No file write. -/
def change_field (w : World) (name field : String) (val : PyVal) :
    Except (PyErr × World) World :=
  match w.data with
  | .dict dd =>
    match dictGet? dd "dataset" with
    | some ds =>
      match get_category w.data name with
      | .error e => .error (e, w)
      | .ok cat =>
        match ds, cat with
        | .dict dsd, some c =>
          match dictGet? dsd c with
          | some (.dict catd) =>
            match dictGet? catd name with
            | some (.dict rcd) =>
              let data2 := PyVal.dict (dictSet dd "dataset"
                (.dict (dictSet dsd c
                  (.dict (dictSet catd name (.dict (dictSet rcd field val)))))))
              .ok { w with data := data2 }
            | some _ => .error (.typeError, w)
            | none => .error (.keyError, w)
          | some _ => .error (.typeError, w)
          | none => .error (.keyError, w)
        | .dict _, none => .error (.keyError, w)
        | _, _ => .error (.typeError, w)
    | none => .error (.keyError, w)
  | _ => .error (.typeError, w)

/-- `delete_dataset_cache(self, name)`: resolve the record's `cache_dir`,
best-effort-remove it from disk, `pop` the record (via a second
`get_category` call on the unchanged document), and persist. -/
def delete_dataset_cache (cfg : Config) (w : World) (name : String) :
    Except (PyErr × World) World :=
  match (do
      let ds ← pyGetItem w.data "dataset"
      let cat ← get_category w.data name
      let catv ← pyGetItemOpt ds cat
      let rcd ← pyGetItem catv name
      let cdp ← pyGetItem rcd "cache_dir"
      pyAsStr cdp : Except PyErr String) with
  | .error e => .error (e, w)
  | .ok p =>
    match removeSkipMissing w p with
    | .error e => .error (e, w)
    | .ok w1 =>
      match w1.data with
      | .dict dd =>
        match dictGet? dd "dataset" with
        | some ds =>
          match get_category w1.data name with
          | .error e => .error (e, w1)
          | .ok cat =>
            match ds, cat with
            | .dict dsd, some c =>
              match dictGet? dsd c with
              | some (.dict catd) =>
                if name ∈ dictKeys catd then
                  let data2 := PyVal.dict (dictSet dd "dataset"
                    (.dict (dictSet dsd c (.dict (dictPop catd name)))))
                  .ok (write_data_cache cfg { w1 with data := data2 } data2 none)
                else .error (.keyError, w1)
              | some _ => .error (.attributeError, w1)
              | none => .error (.keyError, w1)
            | .dict _, none => .error (.keyError, w1)
            | _, _ => .error (.typeError, w1)
        | none => .error (.keyError, w1)
      | _ => .error (.typeError, w1)

/-- `delete_dataset(self, name, delete_data=False)`: resolve the storage
paths, drop the cache (disk + record + persist), and, on request,
best-effort-remove the raw data directory. -/
def delete_dataset (cfg : Config) (w : World) (name : String)
    (delete_data : Bool) : Except (PyErr × World) World :=
  match get_dataset_storage_paths cfg w.data name with
  | .error e => .error (e, w)
  | .ok dset_paths =>
    match delete_dataset_cache cfg w name with
    | .error ew => .error ew
    | .ok w1 =>
      if delete_data then
        match (do
            let dv ← pyGetItem dset_paths "data_dir"
            pyAsStr dv : Except PyErr String) with
        | .error e => .error (e, w1)
        | .ok p =>
          match removeSkipMissing w1 p with
          | .ok w2 => .ok w2
          | .error e => .error (e, w1)
      else .ok w1

end CacheManager

/-! ## DatasetLoader (`dbcollection/utils/loader.py`)

The HDF5 container is modelled as its top-level group names plus a mapping
from dataset path to the list of stored rows.  Indexing is by naturals (the
claims concern valid, non-negative indices). -/

/-- The read-only HDF5 container handle. -/
structure H5File where
  topKeys : List String
  dsets : List (String × List PyVal)

/-- `self.file[path]`: the dataset's rows, `KeyError` when the path is
absent. -/
def h5Get (file : H5File) (path : String) : Except PyErr (List PyVal) :=
  match file.dsets.find? (fun e => e.1 = path) with
  | some e => .ok e.2
  | none => .error .keyError

/-- `dset[i]` for one natural index. -/
def h5Row (rows : List PyVal) (i : Nat) : Except PyErr PyVal :=
  match rows.get? i with
  | some v => .ok v
  | none => .error .indexError

/-- An index argument: a single position or a list of positions
(`isinstance(idx, list)` distinguishes them). -/
inductive PyIdx where
  | single : Nat → PyIdx
  | list : List Nat → PyIdx

/-- `dset[idx]` for either index form (a list picks each row in turn). -/
def h5Index (rows : List PyVal) (idx : PyIdx) : Except PyErr PyVal :=
  match idx with
  | .single i => h5Row rows i
  | .list l => do
    let picked ← l.mapM (h5Row rows)
    pure (.list picked)

/-- `ids[i]` inside the object loop: the id row must be a list, the entry an
index-shaped int. -/
def pyListAt (v : PyVal) (i : Nat) : Except PyErr PyVal :=
  match v with
  | .list xs =>
    match xs.get? i with
    | some x => .ok x
    | none => .error .indexError
  | _ => .error .typeError

/-- The int an id entry must be to index an HDF5 dataset. -/
def pyAsIndex (v : PyVal) : Except PyErr Nat :=
  match v with
  | .int i => if i < 0 then .error .indexError else .ok i.toNat
  | _ => .error .typeError

/-- Modelled from the spec: `convert_ascii_to_str` from
`dbcollection/utils/string_ascii.py`, which is not part of the sources at
hand.  Per the spec it decodes "text stored as fixed-width character-code
arrays into native text": each row of character codes becomes a string,
zero padding dropped. -/
def asciiRowToStr (row : PyVal) : String :=
  match row with
  | .list codes =>
    String.mk (codes.filterMap (fun c =>
      match c with
      | .int i => if 0 < i then some (Char.ofNat i.toNat) else none
      | _ => none))
  | _ => ""

/-- Modelled from the spec: the array form of `convert_ascii_to_str`. -/
def convert_ascii_to_str (rows : List PyVal) : List String :=
  rows.map asciiRowToStr

/-- The loader state after `__init__`: the set names are the container's
top-level keys, and `object_fields` is assigned only when a `train` set
exists (`none` models the attribute never being set). -/
structure DatasetLoader where
  sets : List String
  object_fields : Option (List String)
  file : H5File

namespace DatasetLoader

/-- `DatasetLoader.__init__` (the parts that touch the container): list the
top-level groups and, only if `'train'` is among them, read and decode
`default/train/object_fields`. -/
def init (file : H5File) : Except PyErr DatasetLoader :=
  let sets := file.topKeys
  if "train" ∈ sets then do
    let rows ← h5Get file "default/train/object_fields"
    pure { sets := sets, object_fields := some (convert_ascii_to_str rows), file := file }
  else
    pure { sets := sets, object_fields := none, file := file }

/-- `get(self, set_name, field_name, idx=None)`. -/
def get (L : DatasetLoader) (set_name field_name : String) (idx : Option PyIdx) :
    Except PyErr PyVal := do
  let rows ← h5Get L.file ("default/" ++ set_name ++ "/" ++ field_name)
  match idx with
  | none => pure (.list rows)
  | some i => h5Index rows i

/-- The body of the per-field loop in `object`: for each composite field
name (with its position `i`), fetch `self.file[dir_path + field_name]` and
index it with `ids[i]`. -/
def fieldLoop (file : H5File) (dir_path : String) (ids : PyVal) :
    List String → Nat → Except PyErr (List PyVal)
  | [], _ => .ok []
  | fname :: rest, i => do
    let arr ← h5Get file (dir_path ++ fname)
    let idv ← pyListAt ids i
    let n ← pyAsIndex idv
    let v ← h5Row arr n
    let tl ← fieldLoop file dir_path ids rest (i + 1)
    pure (v :: tl)

/-- Reconstruct the tuple of field values for one object id. -/
def resolveOne (file : H5File) (field_path dir_path : String)
    (fields : List String) (i : Nat) : Except PyErr PyVal := do
  let ods ← h5Get file field_path
  let ids ← h5Row ods i
  let data ← fieldLoop file dir_path ids fields 0
  pure (.list data)

/-- The outer loop of `object` over the requested indices. -/
def objectLoop (file : H5File) (field_path dir_path : String)
    (fields : List String) : List Nat → Except PyErr (List PyVal)
  | [] => .ok []
  | i :: rest => do
    let t ← resolveOne file field_path dir_path fields i
    let tl ← objectLoop file field_path dir_path fields rest
    pure (t :: tl)

/-- `object(self, set_name, idx, is_value=False)`: raw id rows when
`is_value` is false; otherwise resolve every requested id through the
composite field list — reading `self.object_fields` before any file access —
and unwrap the result when exactly one index was requested. -/
def object (L : DatasetLoader) (set_name : String) (idx : PyIdx)
    (is_value : Bool) : Except PyErr PyVal :=
  let dir_path := "default/" ++ set_name ++ "/"
  let field_path := dir_path ++ "object_ids"
  if !is_value then do
    let rows ← h5Get L.file field_path
    h5Index rows idx
  else
    let idxList := match idx with
      | .single n => [n]
      | .list l => l
    match L.object_fields with
    | none => .error .attributeError
    | some fields => do
      let output ← objectLoop L.file field_path dir_path fields idxList
      if idxList.length = 1 then
        match output with
        | t :: _ => pure t
        | [] => .error .indexError
      else
        pure (.list output)

/-- `size(self, set_name, field_name=None, full=False)` (first dimension
only; the model's rows have no further shape). -/
def size (L : DatasetLoader) (set_name : String) (field_name : Option String) :
    Except PyErr Nat := do
  let rows ← h5Get L.file ("default/" ++ set_name ++ "/" ++ (field_name.getD "object_ids"))
  pure rows.length

/-- `object_field_id(self, field_name)`: the position of the field in
`self.object_fields`, re-raised as the module's own `ValueError` when
absent; touching the attribute at all is an `AttributeError` when it was
never assigned. -/
def object_field_id (L : DatasetLoader) (field_name : String) : Except PyErr Nat :=
  match L.object_fields with
  | none => .error .attributeError
  | some fields =>
    match fields.indexOf? field_name with
    | some i => .ok i
    | none => .error (.valueError ("Field name '" ++ field_name ++ "' does not exist."))

end DatasetLoader

/-! ## Concrete fixtures used by witnesses and counterexamples -/

/-- A sample configuration (home directory `/home/u`). -/
def cfg0 : Config := ⟨"/home/u"⟩

/-- A record exactly as `update` stores it (note: key `cache_files`). -/
def recM : PyVal :=
  .dict [("data_dir", .str "/d"), ("cache_dir", .str "/c"),
         ("cache_files", .dict [("train", .str "/c/train.bin")])]

/-- A registry holding one dataset `m` under category `images`. -/
def dataM : PyVal :=
  .dict [("info", .dict []), ("dataset", .dict [("images", .dict [("m", recM)])])]

/-- A world whose in-memory document is `dataM`. -/
def wM : World := ⟨dataM, [], []⟩

/-- A world with an empty registry. -/
def wEmpty : World := ⟨.dict [("info", .dict []), ("dataset", .dict [])], [], []⟩

/-- The document after `change_field wM "m" "data_dir" "/new"`. -/
def dataM9 : PyVal :=
  .dict [("info", .dict []), ("dataset", .dict [("images", .dict [("m",
    .dict [("data_dir", .str "/new"), ("cache_dir", .str "/c"),
           ("cache_files", .dict [("train", .str "/c/train.bin")])])])])]

/-- The world after that `change_field`. -/
def wM9 : World := ⟨dataM9, [], []⟩

/-- The registry document after upserting `m` under `cat1` and then under
`cat2`: both categories now hold a record for `m`. -/
def dataTwoCats : PyVal :=
  .dict [("info", .dict []),
         ("dataset", .dict [
           ("cat1", .dict [("m", .dict [("data_dir", .str "/d1"),
             ("cache_dir", .str "/c1"),
             ("cache_files", .dict [("t1", .str "/f1")])])]),
           ("cat2", .dict [("m", .dict [("data_dir", .str "/d2"),
             ("cache_dir", .str "/c2"),
             ("cache_files", .dict [("t2", .str "/f2")])])])])]

/-- An HDF5 container without a `train` top-level group. -/
def fileNoTrain : H5File := ⟨["test"], [("default/test/object_ids", [.list [.int 0]])]⟩

/-- An HDF5 container with a `train` set of two composite fields and two
objects. -/
def fileTrain : H5File :=
  ⟨["train"],
   [("default/train/object_fields", [.list [.int 97], .list [.int 98]]),
    ("default/train/object_ids", [.list [.int 0, .int 0], .list [.int 1, .int 0]]),
    ("default/train/a", [.str "x0", .str "x1"]),
    ("default/train/b", [.int 7])]⟩

/-- A loader over `fileTrain` (as `init` builds it). -/
def loaderTrain : DatasetLoader := ⟨["train"], some ["a", "b"], fileTrain⟩

/-- Structural well-formedness of a registry document: a dict whose
`dataset` entry is a dict of dicts (what every document the manager itself
writes looks like). -/
def wfRegistry (data : PyVal) : Bool :=
  match data with
  | .dict dd =>
    match dictGet? dd "dataset" with
    | some (.dict dsd) =>
      dsd.all (fun e => match e.2 with
        | .dict _ => true
        | _ => false)
    | _ => false
  | _ => false

/-- A world whose registry file holds a small document. -/
def wFile : World :=
  ⟨.null, [(cfg0.cache_fname, "\x7b\"dataset\": \x7b\"a\": 12\x7d, \"k\": [null, \"s\"]\x7d")], []⟩

mutual
/-- A value that is a real decoded JSON document: every dict along the way
has pairwise-distinct keys (as every Python dict does).  `jsonLoad` only
ever produces such values, and on them `jsonDump` is a right inverse. -/
def wfVal : PyVal → Bool
  | .null => true
  | .bool _ => true
  | .int _ => true
  | .str _ => true
  | .list xs => wfList xs
  | .dict es => nodupKeys es && wfEntries es

/-- All elements well-formed. -/
def wfList : List PyVal → Bool
  | [] => true
  | x :: xs => wfVal x && wfList xs

/-- All member values well-formed. -/
def wfEntries : List (String × PyVal) → Bool
  | [] => true
  | e :: es => wfVal e.2 && wfEntries es

/-- No key occurs twice. -/
def nodupKeys : List (String × PyVal) → Bool
  | [] => true
  | e :: es => !(decide (e.1 ∈ dictKeys es)) && nodupKeys es
end

/-! ## Claims -/

/-- C1: the spec's merge law says a second `update` for an existing record
merges the new `cache_files` into the old ones.  The code cannot: records
are stored under the key `cache_files` while `add_data`'s merge path reads
`old_info['cached_files']` (and `new_info['cached_files']`), so the merge
branch raises `KeyError` on every record `update` ever created.  Evaluated
here on a registry holding one `update`-shaped record: the second upsert
raises instead of merging. -/
theorem C1_second_update_raises_keyerror :
    CacheManager.update cfg0 wM "m" "images" "/d" "/c"
      (.dict [("test", .str "/c/test.bin")]) = .error (.keyError, wM) := rfl

/-- C10: when the merge step (`add_data`) raises a lookup error, `update`
propagates it without touching the in-memory document or the registry file:
the error carries the input world unchanged, because every raise point in
`add_data` precedes its first mutation and `write_data_cache` only runs
after `add_data` returns. -/
theorem C10_update_atomic_on_lookup_error (cfg : Config) (w : World)
    (name category data_dir cache_dir : String) (cache_info : PyVal)
    (h : CacheManager.add_data w.data category name
      (.dict [("data_dir", .str data_dir), ("cache_dir", .str cache_dir),
              ("cache_files", cache_info)]) = .error .keyError) :
    CacheManager.update cfg w name category data_dir cache_dir cache_info
      = .error (.keyError, w) := by
  simp only [CacheManager.update]
  rw [h]

/-- C10 witness: the failing merge on a concrete registry. -/
theorem C10_update_atomic_witness :
    CacheManager.update cfg0 wM "m" "images" "/d2" "/c2"
      (.dict [("t2", .str "/x")]) = .error (.keyError, wM) :=
  C10_update_atomic_on_lookup_error cfg0 wM "m" "images" "/d2" "/c2"
    (.dict [("t2", .str "/x")]) rfl

/-- C9: `change_field` mutates only the in-memory document: on every
success path the file system (and the disk) come back exactly as they were,
since the method contains no `write_data_cache` call. -/
theorem C9_change_field_never_persists (w : World) (name field : String)
    (val : PyVal) (w' : World)
    (h : CacheManager.change_field w name field val = .ok w') :
    w'.fs = w.fs ∧ w'.disk = w.disk := by
  unfold CacheManager.change_field at h
  repeat' split at h
  all_goals (first | (cases h; exact ⟨rfl, rfl⟩) | cases h)

/-- C9 witness: a concrete field change leaves the file system untouched. -/
theorem C9_change_field_witness : wM9.fs = wM.fs ∧ wM9.disk = wM.disk :=
  C9_change_field_never_persists wM "m" "data_dir" (.str "/new") wM9 rfl

/-- C7: for an unregistered dataset name, `get_dataset_storage_paths`
synthesizes `default_cache_dir/name/cache` and `default_data_dir/name/data`
— paths rooted at the configured defaults with the name as a path segment —
and, being a pure lookup, hands the world back unchanged. -/
theorem C7_default_paths_for_unregistered (cfg : Config) (w : World) (name : String)
    (h : CacheManager.exists_dataset w.data name = .ok false) :
    CacheManager.storage_paths_call cfg w name =
      .ok (.dict [("cache_dir",
              .str (osPathJoin (osPathJoin cfg.default_cache_dir name) "cache")),
            ("data_dir",
              .str (osPathJoin (osPathJoin cfg.default_data_dir name) "data"))], w) := by
  unfold CacheManager.storage_paths_call CacheManager.get_dataset_storage_paths
  rw [show ((do
      let e ← CacheManager.exists_dataset w.data name
      if e then do
        let cd ← CacheManager.get_data_from_field w.data name "cache_dir"
        let dd ← CacheManager.get_data_from_field w.data name "data_dir"
        pure (.dict [("cache_dir", cd), ("data_dir", dd)])
      else
        pure (.dict [("cache_dir", .str (osPathJoin (osPathJoin cfg.default_cache_dir name) "cache")),
                     ("data_dir", .str (osPathJoin (osPathJoin cfg.default_data_dir name) "data"))])
      : Except PyErr PyVal)) = _ from rfl]
  rw [h]
  rfl

/-- C7 witness: an unregistered name on a populated registry. -/
theorem C7_default_paths_witness :
    CacheManager.storage_paths_call cfg0 wM "cifar10" =
      .ok (.dict [("cache_dir",
              .str (osPathJoin (osPathJoin cfg0.default_cache_dir "cifar10") "cache")),
            ("data_dir",
              .str (osPathJoin (osPathJoin cfg0.default_data_dir "cifar10") "data"))], wM) :=
  C7_default_paths_for_unregistered cfg0 wM "cifar10" rfl

/-- C8: when the container has no `train` top-level set, construction
succeeds but never assigns `object_fields`; every later
`object_field_id` call and every `object(..., is_value=True)` call then
fails with `AttributeError` — not the documented "field does not exist"
`ValueError` — whatever the field, set, or index asked for. -/
theorem C8_no_train_attribute_error (file : H5File)
    (h : "train" ∉ file.topKeys) :
    DatasetLoader.init file = .ok ⟨file.topKeys, none, file⟩ ∧
    (∀ fname, DatasetLoader.object_field_id ⟨file.topKeys, none, file⟩ fname
        = .error .attributeError) ∧
    (∀ s idx, DatasetLoader.object ⟨file.topKeys, none, file⟩ s idx true
        = .error .attributeError) := by
  refine ⟨?_, fun fname => rfl, fun s idx => rfl⟩
  unfold DatasetLoader.init
  rw [if_neg h]
  rfl

/-- C8 witness: a container whose only set is `test`. -/
theorem C8_no_train_witness :
    DatasetLoader.object_field_id ⟨fileNoTrain.topKeys, none, fileNoTrain⟩ "label"
      = .error .attributeError :=
  (C8_no_train_attribute_error fileNoTrain (by decide)).2.1 "label"

/-! ### Dictionary and category-scan lemmas -/

theorem dictGet?_dictSet_self (d : List (String × PyVal)) (k : String) (v : PyVal) :
    dictGet? (dictSet d k v) k = some v := by
  induction d with
  | nil => simp [dictSet, dictGet?]
  | cons e tl ih =>
    obtain ⟨k', v'⟩ := e
    by_cases h : k' = k <;> simp [dictSet, dictGet?, h, ih]

theorem dictSet_of_not_mem (d : List (String × PyVal)) (k : String) (v : PyVal)
    (h : k ∉ dictKeys d) : dictSet d k v = d ++ [(k, v)] := by
  induction d with
  | nil => simp [dictSet]
  | cons e tl ih =>
    obtain ⟨k', v'⟩ := e
    simp only [dictKeys, List.map_cons, List.mem_cons] at h
    push_neg at h
    have h1 : ¬k' = k := fun hh => h.1 hh.symm
    simp [dictSet, h1, ih (by simpa [dictKeys] using h.2)]

theorem mem_dictKeys_get (d : List (String × PyVal)) (k : String)
    (h : k ∈ dictKeys d) : ∃ v, dictGet? d k = some v := by
  induction d with
  | nil => simp [dictKeys] at h
  | cons e tl ih =>
    obtain ⟨k', v'⟩ := e
    by_cases hk : k' = k
    · exact ⟨v', by simp [dictGet?, hk]⟩
    · have : k ∈ dictKeys tl := by
        simp only [dictKeys, List.map_cons, List.mem_cons] at h
        exact h.resolve_left (fun hh => hk hh.symm)
      obtain ⟨v, hv⟩ := ih this
      exact ⟨v, by simp [dictGet?, hk, hv]⟩

theorem get_category_scan_mem (name : String) :
    ∀ (d : List (String × PyVal)) (c : String),
      CacheManager.get_category_scan name d = .ok (some c) → c ∈ dictKeys d := by
  intro d
  induction d with
  | nil => intro c h; simp [CacheManager.get_category_scan] at h
  | cons e tl ih =>
    intro c h
    obtain ⟨cat, v⟩ := e
    match v, h with
    | .dict catd, h =>
      by_cases hm : name ∈ dictKeys catd
      · simp [CacheManager.get_category_scan, hm] at h
        simp [dictKeys, h]
      · simp only [CacheManager.get_category_scan, if_neg hm] at h
        simp [dictKeys]
        right
        simpa [dictKeys] using ih c h

theorem get_category_scan_append (name : String)
    (d d2 : List (String × PyVal)) (c : String)
    (h : CacheManager.get_category_scan name d = .ok (some c)) :
    CacheManager.get_category_scan name (d ++ d2) = .ok (some c) := by
  induction d with
  | nil => simp [CacheManager.get_category_scan] at h
  | cons e tl ih =>
    obtain ⟨cat, v⟩ := e
    match v, h with
    | .dict catd, h =>
      by_cases hm : name ∈ dictKeys catd
      · simp [CacheManager.get_category_scan, hm] at h ⊢
        exact h
      · simp only [CacheManager.get_category_scan, if_neg hm, List.cons_append] at h ⊢
        exact ih h

theorem get_category_scan_spec (name : String) :
    ∀ (d : List (String × PyVal)) (c : String), nodupKeys d = true →
      CacheManager.get_category_scan name d = .ok (some c) →
      ∃ catd, dictGet? d c = some (.dict catd) ∧ name ∈ dictKeys catd := by
  intro d
  induction d with
  | nil => intro c _ h; simp [CacheManager.get_category_scan] at h
  | cons e tl ih =>
    intro c hnd h
    obtain ⟨cat, v⟩ := e
    simp only [nodupKeys, Bool.and_eq_true, Bool.not_eq_true'] at hnd
    match v, h with
    | .dict catd, h =>
      by_cases hm : name ∈ dictKeys catd
      · simp only [CacheManager.get_category_scan, if_pos hm] at h
        have hc : cat = c := by
          simpa using congrArg (fun r => match r with
            | Except.ok (some x) => x
            | _ => "") h
        exact ⟨catd, by simp [dictGet?, hc], hm⟩
      · simp only [CacheManager.get_category_scan, if_neg hm] at h
        obtain ⟨catd2, hget, hmem⟩ := ih c hnd.2 h
        have hcmem : c ∈ dictKeys tl := get_category_scan_mem name tl c h
        have hne : cat ≠ c := by
          intro hcc
          rw [hcc] at hnd
          exact absurd hcmem (by simpa using hnd.1)
        exact ⟨catd2, by simp [dictGet?, hne, hget], hmem⟩

/-- Inversion for `get_category`: a non-raising call pins the document's
shape down to the scanned category list. -/
theorem get_category_inv (data : PyVal) (name : String) (r : Option String)
    (h : CacheManager.get_category data name = .ok r) :
    ∃ dd dsd, data = .dict dd ∧ dictGet? dd "dataset" = some (.dict dsd) ∧
      CacheManager.get_category_scan name dsd = .ok r := by
  match data, h with
  | .dict dd, h =>
    unfold CacheManager.get_category at h
    match hds : dictGet? dd "dataset" with
    | none => simp [pyGetItem, hds, Bind.bind, Except.bind] at h
    | some (.dict dsd) =>
      exact ⟨dd, dsd, rfl, hds,
        by simpa [pyGetItem, hds, Bind.bind, Except.bind] using h⟩
    | some .null => simp [pyGetItem, hds, Bind.bind, Except.bind] at h
    | some (.bool _) => simp [pyGetItem, hds, Bind.bind, Except.bind] at h
    | some (.int _) => simp [pyGetItem, hds, Bind.bind, Except.bind] at h
    | some (.str _) => simp [pyGetItem, hds, Bind.bind, Except.bind] at h
    | some (.list _) => simp [pyGetItem, hds, Bind.bind, Except.bind] at h

/-- C4: `get_dataset_data` treats absence as exceptional: on a registry
whose `dataset` table is a real dict (pairwise-distinct keys), an
unresolvable name raises the module's own `Exception` carrying the dataset
name in its message, while a resolvable name returns the stored record
without raising. -/
theorem C4_get_record_error_semantics (dd dsd : List (String × PyVal))
    (name : String)
    (hds : dictGet? dd "dataset" = some (.dict dsd))
    (hnd : nodupKeys dsd = true) :
    (CacheManager.get_category (.dict dd) name = .ok none →
      CacheManager.get_dataset_data (.dict dd) name
        = .error (.exception ("Dataset " ++ name ++ " does not exist in the cache file."))) ∧
    (∀ c, CacheManager.get_category (.dict dd) name = .ok (some c) →
      ∃ rcd, CacheManager.get_dataset_data (.dict dd) name = .ok rcd) := by
  constructor
  · intro h0
    simp [CacheManager.get_dataset_data, pyGetItem, hds, h0, pyGetItemOpt,
      Bind.bind, Except.bind]
  · intro c hc
    have hcat_eq := hc
    simp only [CacheManager.get_category, pyGetItem, hds, Bind.bind, Except.bind] at hc
    have hscan : CacheManager.get_category_scan name dsd = .ok (some c) := hc
    obtain ⟨catd, hcat, hmem⟩ := get_category_scan_spec name dsd c hnd hscan
    obtain ⟨rcd, hrcd⟩ := mem_dictKeys_get catd name hmem
    refine ⟨rcd, ?_⟩
    simp [CacheManager.get_dataset_data, pyGetItem, pyGetItemOpt, hds, hcat_eq,
      hcat, hrcd, Bind.bind, Except.bind]

/-- C4 witness: on a one-dataset registry, an unknown name raises the domain
error and the known name returns its record. -/
theorem C4_get_record_witness :
    (CacheManager.get_dataset_data
        (.dict [("info", .dict []), ("dataset", .dict [("images", .dict [("m", recM)])])]) "x"
      = .error (.exception ("Dataset " ++ "x" ++ " does not exist in the cache file."))) ∧
    (∃ rcd, CacheManager.get_dataset_data
        (.dict [("info", .dict []), ("dataset", .dict [("images", .dict [("m", recM)])])]) "m"
      = .ok rcd) :=
  ⟨(C4_get_record_error_semantics [("info", .dict []),
      ("dataset", .dict [("images", .dict [("m", recM)])])]
      [("images", .dict [("m", recM)])] "x" rfl rfl).1 rfl,
   (C4_get_record_error_semantics [("info", .dict []),
      ("dataset", .dict [("images", .dict [("m", recM)])])]
      [("images", .dict [("m", recM)])] "m" rfl rfl).2 "images" rfl⟩

/-- C2 counterexample: removing a dataset that has no registry record does
raise — on an empty registry, `delete_dataset` fails with `KeyError`
(`self.data['dataset'][None]` from the `get_category` miss), so removal of
an already-removed dataset is not idempotent as claimed. -/
theorem C2_remove_missing_counterexample :
    CacheManager.delete_dataset cfg0 wEmpty "mnist" false
      = .error (.keyError, wEmpty) := rfl

/-- C2 amended: for every dataset name the registry does not know,
`delete_dataset` raises `KeyError` (leaving the world as it was); only the
on-disk removal step tolerates absence, not the registry lookup. -/
theorem C2_remove_missing_raises (cfg : Config) (w : World) (name : String)
    (dflag : Bool)
    (h : CacheManager.get_category w.data name = .ok none) :
    CacheManager.delete_dataset cfg w name dflag = .error (.keyError, w) := by
  obtain ⟨dd, dsd, heq, hds, hscan⟩ := get_category_inv _ _ _ h
  have h1 : pyGetItem w.data "dataset" = .ok (.dict dsd) := by
    simp [pyGetItem, heq, hds]
  have h2 : CacheManager.exists_dataset w.data name = .ok false := by
    simp [CacheManager.exists_dataset, catchKeyError, h1, h, pyGetItemOpt,
      Bind.bind, Except.bind]
  have h3 : CacheManager.get_dataset_storage_paths cfg w.data name
      = .ok (.dict [("cache_dir",
            .str (osPathJoin (osPathJoin cfg.default_cache_dir name) "cache")),
          ("data_dir",
            .str (osPathJoin (osPathJoin cfg.default_data_dir name) "data"))]) := by
    simp [CacheManager.get_dataset_storage_paths, h2, Bind.bind, Except.bind,
      pure, Except.pure]
  have h4 : CacheManager.delete_dataset_cache cfg w name = .error (.keyError, w) := by
    simp [CacheManager.delete_dataset_cache, h1, h, pyGetItemOpt,
      Bind.bind, Except.bind]
  simp [CacheManager.delete_dataset, h3, h4]

/-- C2 amended witness: deleting an unknown name on a populated registry. -/
theorem C2_remove_missing_witness :
    CacheManager.delete_dataset cfg0 wM "unknown" false = .error (.keyError, wM) :=
  C2_remove_missing_raises cfg0 wM "unknown" false rfl

/-- C3 counterexample: upserting `m` under `cat1` and then under `cat2`
leaves a record for `m` in *both* categories (uniqueness across categories
is not preserved), and `get_category` afterwards answers `cat1` — the
earliest category in registry order — not `cat2`, the category of the most
recent insertion. -/
theorem C3_uniqueness_counterexample :
    ((do
      let w1 ← (CacheManager.update cfg0 wEmpty "m" "cat1" "/d1" "/c1"
        (.dict [("t1", .str "/f1")])).toOption
      let w2 ← (CacheManager.update cfg0 w1 "m" "cat2" "/d2" "/c2"
        (.dict [("t2", .str "/f2")])).toOption
      pure (w2.data, CacheManager.get_category w2.data "m")) :
        Option (PyVal × Except PyErr (Option String)))
      = some (dataTwoCats, .ok (some "cat1")) ∧ ("cat1" : String) ≠ "cat2" :=
  ⟨rfl, by decide⟩

/-- C3 amended: `add_data` under a fresh category never removes the name
from its old category: the old record stays where it was, the new category
is appended at the back holding a second record for the same name, and
`get_category` keeps resolving to the earliest inserted category still
containing the name. -/
theorem C3_upsert_breaks_uniqueness (dd dsd : List (String × PyVal))
    (name c cNew : String) (info : PyVal)
    (hds : dictGet? dd "dataset" = some (.dict dsd))
    (hnew : cNew ∉ dictKeys dsd)
    (hfound : CacheManager.get_category_scan name dsd = .ok (some c)) :
    CacheManager.add_data (.dict dd) cNew name info
        = .ok (.dict (dictSet dd "dataset"
            (.dict (dictSet dsd cNew (.dict [(name, info)]))))) ∧
    CacheManager.get_category (.dict (dictSet dd "dataset"
        (.dict (dictSet dsd cNew (.dict [(name, info)]))))) name = .ok (some c) ∧
    c ≠ cNew ∧
    dictGet? (dictSet dsd cNew (.dict [(name, info)])) cNew
      = some (.dict [(name, info)]) := by
  have hmem : c ∈ dictKeys dsd := get_category_scan_mem name dsd c hfound
  have hne : c ≠ cNew := fun hcc => hnew (hcc ▸ hmem)
  refine ⟨?_, ?_, hne, dictGet?_dictSet_self dsd cNew (.dict [(name, info)])⟩
  · simp [CacheManager.add_data, hds, hnew, dictSet, pure, Except.pure]
  · rw [dictSet_of_not_mem dsd cNew _ hnew]
    simp only [CacheManager.get_category, pyGetItem, dictGet?_dictSet_self,
      Bind.bind, Except.bind]
    exact get_category_scan_append name dsd [(cNew, .dict [(name, info)])] c hfound

/-- C3 amended witness: inserting `m` under the fresh `cat2` keeps the
`cat1` resolution. -/
theorem C3_upsert_breaks_uniqueness_witness :
    CacheManager.get_category (.dict (dictSet
        [("info", PyVal.dict []), ("dataset", .dict [("cat1", .dict [("m", .null)])])]
        "dataset"
        (.dict (dictSet [("cat1", .dict [("m", .null)])] "cat2" (.dict [("m", .null)])))))
      "m" = .ok (some "cat1") :=
  (C3_upsert_breaks_uniqueness
    [("info", PyVal.dict []), ("dataset", .dict [("cat1", .dict [("m", .null)])])]
    [("cat1", .dict [("m", .null)])] "m" "cat1" "cat2" .null rfl (by decide) rfl).2.1

/-- C6: the asymmetric return shape of `object` with `is_value=True`: a
one-element index list returns the single reconstructed tuple itself, while
a two-element index list returns the two tuples wrapped in a list, in
request order. -/
theorem C6_object_return_shape (L : DatasetLoader) (set_name : String)
    (fields : List String) (i j : Nat) (t u : PyVal)
    (hf : L.object_fields = some fields)
    (hi : DatasetLoader.resolveOne L.file (("default/" ++ set_name ++ "/") ++ "object_ids")
        ("default/" ++ set_name ++ "/") fields i = .ok t)
    (hj : DatasetLoader.resolveOne L.file (("default/" ++ set_name ++ "/") ++ "object_ids")
        ("default/" ++ set_name ++ "/") fields j = .ok u) :
    L.object set_name (.list [i]) true = .ok t ∧
    L.object set_name (.list [i, j]) true = .ok (.list [t, u]) := by
  constructor <;>
    simp [DatasetLoader.object, DatasetLoader.objectLoop, hf, hi, hj,
      Bind.bind, Except.bind, pure, Except.pure]

/-- C6 witness: two composite fields, two objects, both request shapes. -/
theorem C6_object_return_shape_witness :
    DatasetLoader.object loaderTrain "train" (.list [0]) true
      = .ok (.list [.str "x0", .int 7]) ∧
    DatasetLoader.object loaderTrain "train" (.list [0, 1]) true
      = .ok (.list [.list [.str "x0", .int 7], .list [.str "x1", .int 7]]) :=
  C6_object_return_shape loaderTrain "train" ["a", "b"] 0 1
    (.list [.str "x0", .int 7]) (.list [.str "x1", .int 7]) rfl rfl rfl

/-! ### Round-trip groundwork: decimal digits -/

theorem digitChar10_isDig (d : Nat) (h : d < 10) :
    isDig (digitChar10 d) = true ∧ (digitChar10 d).toNat = 48 + d := by
  interval_cases d <;> exact ⟨rfl, rfl⟩

theorem natCharsAux_congr :
    ∀ (n f g : Nat), n ≤ f → n ≤ g → natCharsAux f n = natCharsAux g n := by
  intro n
  induction n using Nat.strong_induction_on with
  | _ n ih =>
    intro f g hf hg
    match f, g with
    | 0, 0 => rfl
    | 0, g + 1 =>
      have : n = 0 := by omega
      subst this
      simp [natCharsAux]
    | f + 1, 0 =>
      have : n = 0 := by omega
      subst this
      simp [natCharsAux]
    | f + 1, g + 1 =>
      by_cases h10 : n < 10
      · simp [natCharsAux, h10]
      · simp only [natCharsAux, if_neg h10]
        rw [ih (n / 10) (by omega) f g (by omega) (by omega)]

theorem natChars_step (n : Nat) :
    natChars n = if n < 10 then [digitChar10 n]
      else natChars (n / 10) ++ [digitChar10 (n % 10)] := by
  by_cases h10 : n < 10
  · simp only [if_pos h10]
    unfold natChars
    match n, h10 with
    | 0, _ => rfl
    | m + 1, h10 => simp [natCharsAux, h10]
  · simp only [if_neg h10]
    unfold natChars
    match n, h10 with
    | m + 1, h10 =>
      simp only [natCharsAux, if_neg h10]
      rw [natCharsAux_congr ((m + 1) / 10) m ((m + 1) / 10) (by omega) (by omega)]

theorem natChars_all_digit (n : Nat) : ∀ c ∈ natChars n, isDig c = true := by
  induction n using Nat.strong_induction_on with
  | _ n ih =>
    rw [natChars_step]
    intro c hc
    by_cases h10 : n < 10
    · simp only [if_pos h10, List.mem_singleton] at hc
      subst hc
      exact (digitChar10_isDig n h10).1
    · simp only [if_neg h10, List.mem_append, List.mem_singleton] at hc
      rcases hc with hc | hc
      · exact ih (n / 10) (by omega) c hc
      · subst hc
        exact (digitChar10_isDig (n % 10) (by omega)).1

theorem natChars_ne_nil (n : Nat) : natChars n ≠ [] := by
  rw [natChars_step]
  by_cases h10 : n < 10 <;> simp [h10]

theorem grabDigits_stop (acc : Nat) (rest : List Char)
    (h : ∀ c t, rest = c :: t → isDig c = false) :
    grabDigits acc rest = (acc, rest) := by
  match rest with
  | [] => rfl
  | c :: t => simp [grabDigits, h c t rfl]

theorem grabDigits_natChars (n : Nat) :
    ∀ (acc : Nat) (rest : List Char),
      grabDigits acc (natChars n ++ rest)
        = grabDigits (acc * 10 ^ (natChars n).length + n) rest := by
  induction n using Nat.strong_induction_on with
  | _ n ih =>
    intro acc rest
    rw [natChars_step]
    by_cases h10 : n < 10
    · simp only [if_pos h10, List.singleton_append, List.length_singleton]
      have hd := digitChar10_isDig n h10
      simp [grabDigits, hd.1, hd.2]
    · simp only [if_neg h10, List.append_assoc, List.singleton_append,
        List.length_append, List.length_singleton]
      rw [ih (n / 10) (by omega) acc (digitChar10 (n % 10) :: rest)]
      have hd := digitChar10_isDig (n % 10) (by omega)
      simp [grabDigits, hd.1, hd.2]
      congr 1
      have hpow : 10 ^ ((natChars (n / 10)).length + 1)
          = 10 ^ (natChars (n / 10)).length * 10 := by ring
      rw [hpow]
      have : n / 10 * 10 + n % 10 = n := by omega
      nlinarith [this]

/-! ### Round-trip groundwork: string escapes -/

theorem hexVal_hexDigitChar (d : Nat) (h : d < 16) :
    hexVal (hexDigitChar d) = some d := by
  interval_cases d <;> rfl

theorem char_eq_of_toNat {c d : Char} (h : c.toNat = d.toNat) : c = d := by
  have h1 : Char.ofNat c.toNat = Char.ofNat d.toNat := congrArg Char.ofNat h
  rwa [Char.ofNat_toNat, Char.ofNat_toNat] at h1

theorem parseStrBody_escape (c : Char) (acc rest : List Char) :
    parseStrBody acc (escapeChar c ++ rest) = parseStrBody (c :: acc) rest := by
  by_cases h1 : c = '\\'
  · subst h1; rfl
  by_cases h2 : c = '"'
  · subst h2; rfl
  by_cases h3 : c.toNat = 8
  · have : c = Char.ofNat 8 := char_eq_of_toNat (by simpa using h3)
    subst this; rfl
  by_cases h4 : c.toNat = 12
  · have : c = Char.ofNat 12 := char_eq_of_toNat (by simpa using h4)
    subst this; rfl
  by_cases h5 : c = '\n'
  · subst h5; rfl
  by_cases h6 : c = '\r'
  · subst h6; rfl
  by_cases h7 : c = '\t'
  · subst h7; rfl
  by_cases h8 : c.toNat < 32
  · have hdiv : c.toNat / 16 < 16 := by omega
    have hmod : c.toNat % 16 < 16 := by omega
    have h0 : hexVal '0' = some 0 := rfl
    simp only [escapeChar, if_neg h1, if_neg h2, if_neg h3, if_neg h4, if_neg h5,
      if_neg h6, if_neg h7, if_pos h8, List.cons_append, List.nil_append]
    simp only [parseStrBody, decodeU, h0, hexVal_hexDigitChar _ hdiv,
      hexVal_hexDigitChar _ hmod, Option.bind_eq_bind, Option.some_bind]
    rw [if_pos (trivial : True)]
    rw [if_neg (by omega :
      ¬(55296 ≤ ((0 * 16 + 0) * 16 + c.toNat / 16) * 16 + c.toNat % 16 ∧
        ((0 * 16 + 0) * 16 + c.toNat / 16) * 16 + c.toNat % 16 < 57344))]
    rw [show ((0 * 16 + 0) * 16 + c.toNat / 16) * 16 + c.toNat % 16 = c.toNat by omega,
      Char.ofNat_toNat]
    rw [if_neg (by decide : ¬('\\' : Char) = '"')]
  · simp only [escapeChar, if_neg h1, if_neg h2, if_neg h3, if_neg h4, if_neg h5,
      if_neg h6, if_neg h7, if_neg h8, List.cons_append, List.nil_append]
    rw [parseStrBody.eq_def]
    simp [h1, h2, show ¬c.toNat < 32 by omega]

theorem parseStrBody_escStr (cs : List Char) :
    ∀ (acc rest : List Char),
      parseStrBody acc (escStr cs ++ '"' :: rest) = some (acc.reverse ++ cs, rest) := by
  induction cs with
  | nil =>
    intro acc rest
    simp only [escStr, List.flatMap_nil, List.nil_append, List.append_nil]
    rw [parseStrBody.eq_def]
    simp
  | cons c cs ih =>
    intro acc rest
    have hstep : escStr (c :: cs) = escapeChar c ++ escStr cs := by
      simp [escStr]
    rw [hstep, List.append_assoc, parseStrBody_escape, ih]
    simp

/-! ### Round-trip groundwork: first characters and whitespace -/

theorem isDig_facts (c : Char) (h : isDig c = true) :
    isWsChar c = false ∧ c ≠ ']' ∧ c ≠ 'n' ∧ c ≠ 't' ∧ c ≠ 'f' ∧ c ≠ '"' ∧
      c ≠ '[' ∧ c ≠ lbrace ∧ c ≠ '-' ∧ c ≠ ',' ∧ c ≠ rbrace := by
  have hv : 48 ≤ c.toNat ∧ c.toNat ≤ 57 := by
    simpa [isDig, Bool.and_eq_true, decide_eq_true_eq] using h
  have key : ∀ d : Char, ¬(48 ≤ d.toNat ∧ d.toNat ≤ 57) → c ≠ d := by
    intro d hd hcd
    exact hd (hcd ▸ hv)
  refine ⟨?_, key _ (by decide), key _ (by decide), key _ (by decide),
    key _ (by decide), key _ (by decide), key _ (by decide), key _ (by decide),
    key _ (by decide), key _ (by decide), key _ (by decide)⟩
  simp [isWsChar, key ' ' (by decide), key '\t' (by decide),
    key '\n' (by decide), key '\r' (by decide)]

theorem natChars_head (n : Nat) :
    ∃ c t, natChars n = c :: t ∧ isDig c = true := by
  match hnc : natChars n with
  | [] => exact absurd hnc (natChars_ne_nil n)
  | c :: t =>
    exact ⟨c, t, rfl, natChars_all_digit n c (hnc ▸ List.mem_cons_self c t)⟩

/-- Every serialized value starts with a non-whitespace character that is
not a closing bracket. -/
theorem serVal_head (v : PyVal) :
    ∃ c t, serVal v = c :: t ∧ isWsChar c = false ∧ c ≠ ']' := by
  match v with
  | .null => exact ⟨'n', _, rfl, by decide, by decide⟩
  | .bool true => exact ⟨'t', _, rfl, by decide, by decide⟩
  | .bool false => exact ⟨'f', _, rfl, by decide, by decide⟩
  | .str s => exact ⟨'"', _, rfl, by decide, by decide⟩
  | .list [] => exact ⟨'[', _, rfl, by decide, by decide⟩
  | .list (x :: xs) => exact ⟨'[', _, rfl, by decide, by decide⟩
  | .dict [] => exact ⟨lbrace, _, rfl, by decide, by decide⟩
  | .dict (e :: es) => exact ⟨lbrace, _, rfl, by decide, by decide⟩
  | .int i =>
    by_cases hneg : i < 0
    · exact ⟨'-', natChars i.natAbs, by simp [serVal, intChars, hneg],
        by decide, by decide⟩
    · obtain ⟨c, t, hct, hdig⟩ := natChars_head i.toNat
      obtain ⟨hws, hbr, _⟩ := isDig_facts c hdig
      exact ⟨c, t, by simp [serVal, intChars, hneg, hct], hws, hbr⟩

theorem skipWs_cons_not (c : Char) (r : List Char) (h : isWsChar c = false) :
    skipWs (c :: r) = c :: r := by
  simp [skipWs, h]

theorem skipWs_serVal (v : PyVal) (x : List Char) :
    skipWs (serVal v ++ x) = serVal v ++ x := by
  obtain ⟨c, t, hct, hws, _⟩ := serVal_head v
  rw [hct, List.cons_append, skipWs_cons_not _ _ hws]

theorem parseVal_ws (c : Char) (s : List Char) (h : isWsChar c = true) :
    ∀ f, parseVal f (c :: s) = parseVal f s := by
  intro f
  match f with
  | 0 => rfl
  | f + 1 =>
    rw [parseVal.eq_def, parseVal.eq_def]
    simp [skipWs, h]

theorem parseElems_ws (c : Char) (s : List Char) (h : isWsChar c = true) :
    ∀ f, parseElems f (c :: s) = parseElems f s := by
  intro f
  match f with
  | 0 => rfl
  | f + 1 =>
    rw [parseElems.eq_def, parseElems.eq_def]
    simp [parseVal_ws c s h]

theorem parseMembs_ws (c : Char) (s : List Char) (h : isWsChar c = true) :
    ∀ f, parseMembs f (c :: s) = parseMembs f s := by
  intro f
  match f with
  | 0 => rfl
  | f + 1 =>
    rw [parseMembs.eq_def, parseMembs.eq_def]
    simp [skipWs, h]

/-! ### Round-trip groundwork: rebuilding dicts from parsed members -/

theorem foldl_dictSet_append (ps : List (String × PyVal)) :
    ∀ acc, (∀ k ∈ dictKeys ps, k ∉ dictKeys acc) → nodupKeys ps = true →
      ps.foldl (fun d e => dictSet d e.1 e.2) acc = acc ++ ps := by
  induction ps with
  | nil => intro acc _ _; simp
  | cons e es ih =>
    intro acc hdisj hnd
    obtain ⟨k, v⟩ := e
    simp only [nodupKeys, Bool.and_eq_true, Bool.not_eq_true',
      decide_eq_false_iff_not] at hnd
    have hknotacc : k ∉ dictKeys acc := hdisj k (by simp [dictKeys])
    simp only [List.foldl_cons]
    rw [dictSet_of_not_mem acc k v hknotacc,
      ih (acc ++ [(k, v)]) ?_ hnd.2]
    · simp
    · intro k2 hk2
      have hk2ne : k2 ≠ k := fun hh => hnd.1 (hh ▸ hk2)
      have hk2acc : k2 ∉ dictKeys acc :=
        hdisj k2 (List.mem_cons.mpr (Or.inr hk2))
      have hkeys : dictKeys (acc ++ [(k, v)]) = dictKeys acc ++ [k] := by
        simp [dictKeys]
      rw [hkeys]
      simp only [List.mem_append, List.mem_singleton]
      rintro (h | h)
      · exact hk2acc h
      · exact hk2ne h

theorem dictOfPairs_self (ps : List (String × PyVal))
    (hnd : nodupKeys ps = true) : dictOfPairs ps = ps := by
  unfold dictOfPairs
  rw [foldl_dictSet_append ps [] (by simp [dictKeys]) hnd]
  simp

theorem mem_dictKeys_dictSet (d : List (String × PyVal)) (k : String)
    (v : PyVal) (a : String) :
    a ∈ dictKeys (dictSet d k v) → a ∈ dictKeys d ∨ a = k := by
  induction d with
  | nil =>
    intro hmem
    right
    simpa [dictSet, dictKeys] using hmem
  | cons e tl ih =>
    obtain ⟨k', v'⟩ := e
    by_cases hk : k' = k
    · rw [show dictSet ((k', v') :: tl) k v = (k', v) :: tl from by
        simp [dictSet, hk]]
      intro hmem
      rcases List.mem_cons.mp hmem with h | h
      · exact Or.inl (List.mem_cons.mpr (Or.inl h))
      · exact Or.inl (List.mem_cons.mpr (Or.inr h))
    · rw [show dictSet ((k', v') :: tl) k v = (k', v') :: dictSet tl k v from by
        simp [dictSet, hk]]
      intro hmem
      rcases List.mem_cons.mp hmem with h | h
      · exact Or.inl (List.mem_cons.mpr (Or.inl h))
      · rcases ih h with h2 | h2
        · exact Or.inl (List.mem_cons.mpr (Or.inr h2))
        · exact Or.inr h2

theorem nodupKeys_dictSet (d : List (String × PyVal)) (k : String) (v : PyVal)
    (h : nodupKeys d = true) : nodupKeys (dictSet d k v) = true := by
  induction d with
  | nil => simp [dictSet, nodupKeys, dictKeys]
  | cons e tl ih =>
    obtain ⟨k', v'⟩ := e
    simp only [nodupKeys, Bool.and_eq_true, Bool.not_eq_true',
      decide_eq_false_iff_not] at h
    by_cases hk : k' = k
    · simp only [dictSet, if_pos hk, nodupKeys, Bool.and_eq_true,
        Bool.not_eq_true', decide_eq_false_iff_not]
      exact ⟨h.1, h.2⟩
    · simp only [dictSet, if_neg hk, nodupKeys, Bool.and_eq_true,
        Bool.not_eq_true', decide_eq_false_iff_not]
      refine ⟨?_, ih h.2⟩
      intro hmem
      rcases mem_dictKeys_dictSet tl k v k' hmem with h2 | h2
      · exact h.1 h2
      · exact hk h2

theorem wfEntries_dictSet (d : List (String × PyVal)) (k : String) (v : PyVal)
    (hd : wfEntries d = true) (hv : wfVal v = true) :
    wfEntries (dictSet d k v) = true := by
  induction d with
  | nil => simp [dictSet, wfEntries, hv]
  | cons e tl ih =>
    obtain ⟨k', v'⟩ := e
    simp only [wfEntries, Bool.and_eq_true] at hd
    by_cases hk : k' = k
    · simp only [dictSet, if_pos hk, wfEntries, Bool.and_eq_true]
      exact ⟨hv, hd.2⟩
    · simp only [dictSet, if_neg hk, wfEntries, Bool.and_eq_true]
      exact ⟨hd.1, ih hd.2⟩

theorem dictOfPairs_wf (ps : List (String × PyVal))
    (h : ∀ e ∈ ps, wfVal e.2 = true) :
    nodupKeys (dictOfPairs ps) = true ∧ wfEntries (dictOfPairs ps) = true := by
  suffices key : ∀ acc, nodupKeys acc = true → wfEntries acc = true →
      nodupKeys (ps.foldl (fun d e => dictSet d e.1 e.2) acc) = true ∧
      wfEntries (ps.foldl (fun d e => dictSet d e.1 e.2) acc) = true by
    exact key [] rfl rfl
  induction ps with
  | nil => intro acc h1 h2; exact ⟨h1, h2⟩
  | cons e es ih =>
    intro acc h1 h2
    simp only [List.foldl_cons]
    exact ih (fun x hx => h x (by simp [hx]))
      (dictSet acc e.1 e.2)
      (nodupKeys_dictSet acc e.1 e.2 h1)
      (wfEntries_dictSet acc e.1 e.2 h2 (h e (by simp)))

/-! ### Round-trip groundwork: numbers through the parser -/

theorem grabDigits_natChars_full (n : Nat) (rest : List Char)
    (hre : extendsNum rest = false) :
    grabDigits 0 (natChars n ++ rest) = (n, rest) := by
  rw [grabDigits_natChars n 0 rest]
  simp only [Nat.zero_mul, Nat.zero_add]
  apply grabDigits_stop
  intro c t hct
  rw [hct] at hre
  simp only [extendsNum, Bool.or_eq_false_iff] at hre
  exact hre.1.1.1

theorem parseVal_int (f : Nat) (i : Int) (rest : List Char)
    (hre : extendsNum rest = false) :
    parseVal (f + 1) (intChars i ++ rest) = some (.int i, rest) := by
  by_cases hneg : i < 0
  · have hi : intChars i = '-' :: natChars i.natAbs := by simp [intChars, hneg]
    obtain ⟨c, t, hct, hdig⟩ := natChars_head i.natAbs
    have hkey : grabDigits (c.toNat - 48) (t ++ rest) = (i.natAbs, rest) := by
      have h1 := grabDigits_natChars_full i.natAbs rest hre
      rw [hct] at h1
      simpa [grabDigits, hdig] using h1
    rw [hi, parseVal.eq_def]
    simp only [List.cons_append]
    rw [skipWs_cons_not '-' _ (by decide)]
    simp only [if_neg (by decide : ¬('-' : Char) = 'n'),
      if_neg (by decide : ¬('-' : Char) = 't'),
      if_neg (by decide : ¬('-' : Char) = 'f'),
      if_neg (by decide : ¬('-' : Char) = '"'),
      if_neg (by decide : ¬('-' : Char) = '['),
      if_neg (by decide : ¬('-' : Char) = lbrace),
      if_pos (rfl : ('-' : Char) = '-')]
    rw [hct]
    simp only [List.cons_append]
    simp only [if_pos hdig, hkey, hre, Bool.false_eq_true, if_false]
    have : -(↑(i.natAbs) : Int) = i := by omega
    rw [this, if_pos (trivial : True)]
  · have hi : intChars i = natChars i.toNat := by simp [intChars, hneg]
    obtain ⟨c, t, hct, hdig⟩ := natChars_head i.toNat
    obtain ⟨hws, _, hn, ht, hf, hq, hlb, hlbr, hm, _, _⟩ := isDig_facts c hdig
    have hkey : grabDigits (c.toNat - 48) (t ++ rest) = (i.toNat, rest) := by
      have h1 := grabDigits_natChars_full i.toNat rest hre
      rw [hct] at h1
      simpa [grabDigits, hdig] using h1
    rw [hi, hct, parseVal.eq_def]
    simp only [List.cons_append]
    rw [skipWs_cons_not c _ hws]
    simp only [if_neg hn, if_neg ht, if_neg hf, if_neg hq, if_neg hlb,
      if_neg hlbr, if_neg hm, if_pos hdig, hkey, hre, Bool.false_eq_true, if_false]
    have : (↑(i.toNat) : Int) = i := by omega
    rw [this]
    try rw [if_pos (trivial : True)]


theorem String_mk_data (s : String) : String.mk s.data = s := rfl

/-! ### Round-trip groundwork: one-step views of the parser -/

theorem parseVal_lbracket_cons (f : Nat) (c2 : Char) (r2 r : List Char)
    (hr : skipWs r = c2 :: r2) :
    parseVal (f + 1) ('[' :: r)
      = if c2 = ']' then some (.list [], r2)
        else Option.map (fun p => (.list p.1, p.2)) (parseElems f (c2 :: r2)) := by
  rw [parseVal.eq_def]
  simp [skipWs, isWsChar, hr]

theorem parseVal_lbrace_cons (f : Nat) (c2 : Char) (r2 r : List Char)
    (hr : skipWs r = c2 :: r2) :
    parseVal (f + 1) (lbrace :: r)
      = if c2 = rbrace then some (.dict [], r2)
        else Option.map (fun p => (.dict (dictOfPairs p.1), p.2)) (parseMembs f (c2 :: r2)) := by
  rw [parseVal.eq_def]
  simp [skipWs, isWsChar, hr, lbrace, rbrace]

theorem parseElems_step (f : Nat) (s : List Char) :
    parseElems (f + 1) s
      = (match parseVal f s with
         | none => none
         | some (v, r) =>
           match skipWs r with
           | ',' :: r2 => Option.map (fun p => (v :: p.1, p.2)) (parseElems f r2)
           | c :: r2 => if c = ']' then some ([v], r2) else none
           | [] => none) := rfl

theorem parseMembs_quote (f : Nat) (r s : List Char) (hs : skipWs s = '"' :: r) :
    parseMembs (f + 1) s
      = (match parseStrBody [] r with
         | none => none
         | some (k, r1) =>
           match skipWs r1 with
           | ':' :: r2 =>
             (match parseVal f r2 with
              | none => none
              | some (v, r3) =>
                match skipWs r3 with
                | ',' :: r4 =>
                  Option.map (fun p => ((String.mk k, v) :: p.1, p.2)) (parseMembs f r4)
                | c2 :: r4 => if c2 = rbrace then some ([(String.mk k, v)], r4) else none
                | [] => none)
           | _ => none) := by
  rw [parseMembs.eq_def]
  simp [hs]

theorem skipWs_comma (r : List Char) : skipWs (',' :: r) = ',' :: r :=
  skipWs_cons_not _ _ (by decide)

theorem skipWs_colon (r : List Char) : skipWs (':' :: r) = ':' :: r :=
  skipWs_cons_not _ _ (by decide)

theorem skipWs_rbracket (r : List Char) : skipWs (']' :: r) = ']' :: r :=
  skipWs_cons_not _ _ (by decide)

theorem skipWs_rcurly (r : List Char) : skipWs ('\x7d' :: r) = '\x7d' :: r :=
  skipWs_cons_not _ _ (by decide)

theorem parseVal_space (f : Nat) (s : List Char) :
    parseVal f (' ' :: s) = parseVal f s := parseVal_ws ' ' s (by decide) f

theorem parseElems_space (f : Nat) (s : List Char) :
    parseElems f (' ' :: s) = parseElems f s := parseElems_ws ' ' s (by decide) f

theorem parseMembs_space (f : Nat) (s : List Char) :
    parseMembs f (' ' :: s) = parseMembs f s := parseMembs_ws ' ' s (by decide) f

theorem extendsNum_cons_false (c : Char) (t : List Char)
    (h : (isDig c || c = '.' || c = 'e' || c = 'E') = false) :
    extendsNum (c :: t) = false := h

/-! ### The round-trip: parsing a serialized value recovers it -/

mutual
theorem rt_val : ∀ (v : PyVal) (f : Nat) (rest : List Char),
    wfVal v = true → (serVal v).length < f → extendsNum rest = false →
    parseVal f (serVal v ++ rest) = some (v, rest)
  | .null, f, rest, _, hf, _ => by
    match f, hf with
    | f + 1, hf =>
      rw [parseVal.eq_def]
      simp [serVal, skipWs, isWsChar, expectChars]
  | .bool true, f, rest, _, hf, _ => by
    match f, hf with
    | f + 1, hf =>
      rw [parseVal.eq_def]
      simp [serVal, skipWs, isWsChar, expectChars]
  | .bool false, f, rest, _, hf, _ => by
    match f, hf with
    | f + 1, hf =>
      rw [parseVal.eq_def]
      simp [serVal, skipWs, isWsChar, expectChars]
  | .int i, f, rest, _, hf, hre => by
    match f, hf with
    | f + 1, hf =>
      simpa [serVal] using parseVal_int f i rest hre
  | .str s, f, rest, _, hf, _ => by
    match f, hf with
    | f + 1, hf =>
      have harg : serVal (.str s) ++ rest
          = '"' :: (escStr s.data ++ ('"' :: rest)) := by
        simp [serVal]
      rw [harg, parseVal.eq_def]
      simp [skipWs, isWsChar, parseStrBody_escStr, String_mk_data]
  | .list [], f, rest, _, hf, _ => by
    match f, hf with
    | f + 1, hf =>
      rw [parseVal.eq_def]
      simp [serVal, skipWs, isWsChar]
  | .list (x :: xs), f, rest, hwf, hf, _ => by
    match f, hf with
    | f + 1, hf =>
      have hwf2 : wfList (x :: xs) = true := hwf
      have harg : serVal (.list (x :: xs)) ++ rest
          = '[' :: ((serVal x ++ serValTail xs) ++ (']' :: rest)) := by
        simp [serVal]
      have hlen : (serVal x ++ serValTail xs).length + 1 < f := by
        have hl : (serVal (.list (x :: xs))).length
            = (serVal x ++ serValTail xs).length + 2 := by
          simp [serVal]
          omega
        omega
      have key := rt_elems x xs f rest hwf2 hlen
      obtain ⟨c, t, hct, hcws, hcbr⟩ := serVal_head x
      have hcons : (serVal x ++ serValTail xs) ++ (']' :: rest)
          = c :: (t ++ serValTail xs ++ ']' :: rest) := by
        simp [hct]
      have hsc : skipWs ((serVal x ++ serValTail xs) ++ (']' :: rest))
          = c :: (t ++ serValTail xs ++ ']' :: rest) := by
        rw [List.append_assoc, skipWs_serVal]
        rw [← List.append_assoc, hcons]
      rw [harg, parseVal_lbracket_cons f c _ _ hsc, if_neg hcbr, ← hcons, key]
      rfl
  | .dict [], f, rest, _, hf, _ => by
    match f, hf with
    | f + 1, hf =>
      rw [parseVal.eq_def]
      simp [serVal, skipWs, isWsChar, lbrace, rbrace]
  | .dict (e :: es), f, rest, hwf, hf, _ => by
    match f, hf with
    | f + 1, hf =>
      have hwf2 : (nodupKeys (e :: es) && wfEntries (e :: es)) = true := hwf
      have hpair : nodupKeys (e :: es) = true ∧ wfEntries (e :: es) = true := by
        simpa using hwf2
      have hnd : nodupKeys (e :: es) = true := hpair.1
      have hwfes : wfEntries (e :: es) = true := hpair.2
      have harg : serVal (.dict (e :: es)) ++ rest
          = lbrace :: ((serEntry e ++ serEntryTail es) ++ (rbrace :: rest)) := by
        simp [serVal]
      have hlen : (serEntry e ++ serEntryTail es).length + 1 < f := by
        have hl : (serVal (.dict (e :: es))).length
            = (serEntry e ++ serEntryTail es).length + 2 := by
          simp [serVal]
          omega
        omega
      have key := rt_membs e es f rest hwfes hlen
      have hcons : (serEntry e ++ serEntryTail es) ++ (rbrace :: rest)
          = '"' :: ((escStr e.1.data ++ ('"' :: ':' :: ' ' :: serVal e.2))
              ++ serEntryTail es ++ rbrace :: rest) := by
        obtain ⟨k, v⟩ := e
        simp [serEntry]
      have hsc : skipWs ((serEntry e ++ serEntryTail es) ++ (rbrace :: rest))
          = '"' :: ((escStr e.1.data ++ ('"' :: ':' :: ' ' :: serVal e.2))
              ++ serEntryTail es ++ rbrace :: rest) := by
        rw [hcons, skipWs_cons_not _ _ (by decide)]
      rw [harg, parseVal_lbrace_cons f '"' _ _ hsc,
        if_neg (by decide : ¬('"' : Char) = rbrace), ← hcons, key]
      simp [dictOfPairs_self (e :: es) hnd]
termination_by v _ _ _ _ _ => sizeOf v

theorem rt_elems : ∀ (x : PyVal) (xs : List PyVal) (f : Nat) (rest : List Char),
    wfList (x :: xs) = true → (serVal x ++ serValTail xs).length + 1 < f →
    parseElems f ((serVal x ++ serValTail xs) ++ (']' :: rest)) = some (x :: xs, rest)
  | x, [], f, rest, hwf, hf => by
    match f, hf with
    | f + 1, hf =>
      have hsplit : (wfVal x && wfList []) = true := hwf
      have hwfx : wfVal x = true := (by simpa using hsplit : wfVal x = true ∧ wfList [] = true).1
      have hlenx : (serVal x).length < f := by
        simp only [List.length_append] at hf
        omega
      have hx := rt_val x f (']' :: rest) hwfx hlenx
        (extendsNum_cons_false ']' rest (by decide))
      have harg : (serVal x ++ serValTail []) ++ (']' :: rest)
          = serVal x ++ (']' :: rest) := by
        simp [serValTail]
      rw [parseElems_step, harg, hx]
      simp [skipWs_rbracket]
  | x, y :: ys, f, rest, hwf, hf => by
    match f, hf with
    | f + 1, hf =>
      have hsplit : (wfVal x && wfList (y :: ys)) = true := hwf
      have hpair : wfVal x = true ∧ wfList (y :: ys) = true := by simpa using hsplit
      have hwfx : wfVal x = true := hpair.1
      have hwftl : wfList (y :: ys) = true := hpair.2
      have hlens : serValTail (y :: ys)
          = ',' :: ' ' :: (serVal y ++ serValTail ys) := rfl
      have hlenx : (serVal x).length < f := by
        simp only [hlens, List.length_append, List.length_cons] at hf
        omega
      have hlentl : (serVal y ++ serValTail ys).length + 1 < f := by
        simp only [hlens, List.length_append, List.length_cons] at hf ⊢
        omega
      have harg : (serVal x ++ serValTail (y :: ys)) ++ (']' :: rest)
          = serVal x ++ (',' :: ' ' :: ((serVal y ++ serValTail ys) ++ (']' :: rest))) := by
        simp [hlens]
      have hx := rt_val x f
        (',' :: ' ' :: ((serVal y ++ serValTail ys) ++ (']' :: rest)))
        hwfx hlenx (extendsNum_cons_false ',' _ (by decide))
      have htl := rt_elems y ys f rest hwftl hlentl
      have htl2 : parseElems f (serVal y ++ (serValTail ys ++ ']' :: rest))
          = some (y :: ys, rest) := by
        rw [← List.append_assoc]
        exact htl
      rw [parseElems_step, harg, hx]
      simp [skipWs_comma, parseElems_space, htl, htl2]
termination_by x xs _ _ _ _ => sizeOf x + sizeOf xs

theorem rt_membs : ∀ (e : String × PyVal) (es : List (String × PyVal)) (f : Nat)
    (rest : List Char),
    wfEntries (e :: es) = true → (serEntry e ++ serEntryTail es).length + 1 < f →
    parseMembs f ((serEntry e ++ serEntryTail es) ++ (rbrace :: rest)) = some (e :: es, rest)
  | (k, v), [], f, rest, hwf, hf => by
    match f, hf with
    | f + 1, hf =>
      have hsplit : (wfVal v && wfEntries []) = true := hwf
      have hwfv : wfVal v = true :=
        (by simpa using hsplit : wfVal v = true ∧ wfEntries [] = true).1
      have hser : serEntry (k, v)
          = '"' :: (escStr k.data ++ ('"' :: ':' :: ' ' :: serVal v)) := rfl
      have hlenv : (serVal v).length < f := by
        simp only [hser, serEntryTail, List.append_nil, List.length_append,
          List.length_cons] at hf
        omega
      have harg : (serEntry (k, v) ++ serEntryTail []) ++ (rbrace :: rest)
          = '"' :: (escStr k.data
              ++ ('"' :: (':' :: ' ' :: (serVal v ++ (rbrace :: rest))))) := by
        simp [hser, serEntryTail]
      have hv := rt_val v f (rbrace :: rest) hwfv hlenv
        (extendsNum_cons_false rbrace rest (by decide))
      rw [harg, parseMembs_quote f _ _ (skipWs_cons_not _ _ (by decide)),
        parseStrBody_escStr]
      simp only [rbrace] at hv ⊢
      simp [skipWs_colon, parseVal_space, hv, skipWs_rcurly, String_mk_data]
  | (k, v), e2 :: es2, f, rest, hwf, hf => by
    match f, hf with
    | f + 1, hf =>
      have hsplit : (wfVal v && wfEntries (e2 :: es2)) = true := hwf
      have hpair : wfVal v = true ∧ wfEntries (e2 :: es2) = true := by simpa using hsplit
      have hwfv : wfVal v = true := hpair.1
      have hwftl : wfEntries (e2 :: es2) = true := hpair.2
      have hser : serEntry (k, v)
          = '"' :: (escStr k.data ++ ('"' :: ':' :: ' ' :: serVal v)) := rfl
      have htls : serEntryTail (e2 :: es2)
          = ',' :: ' ' :: (serEntry e2 ++ serEntryTail es2) := rfl
      have hlenv : (serVal v).length < f := by
        simp only [hser, htls, List.length_append, List.length_cons] at hf
        omega
      have hlentl : (serEntry e2 ++ serEntryTail es2).length + 1 < f := by
        simp only [hser, htls, List.length_append, List.length_cons] at hf ⊢
        omega
      have harg : (serEntry (k, v) ++ serEntryTail (e2 :: es2)) ++ (rbrace :: rest)
          = '"' :: (escStr k.data ++ ('"' :: (':' :: ' ' :: (serVal v ++
              (',' :: ' ' :: ((serEntry e2 ++ serEntryTail es2)
                ++ (rbrace :: rest))))))) := by
        simp [hser, htls]
      have hv := rt_val v f
        (',' :: ' ' :: ((serEntry e2 ++ serEntryTail es2) ++ (rbrace :: rest)))
        hwfv hlenv (extendsNum_cons_false ',' _ (by decide))
      have htl := rt_membs e2 es2 f rest hwftl hlentl
      rw [harg, parseMembs_quote f _ _ (skipWs_cons_not _ _ (by decide)),
        parseStrBody_escStr]
      simp only [List.append_assoc] at hv htl
      simp only [rbrace] at hv htl ⊢
      simp [skipWs_colon, parseVal_space, hv, skipWs_comma, parseMembs_space,
        htl, String_mk_data]
termination_by e es _ _ _ _ => sizeOf e + sizeOf es
end

/-- One-step view of `parseVal` at successor fuel. -/
theorem parseVal_step (f : Nat) (s : List Char) :
    parseVal (f + 1) s
      = (match skipWs s with
         | [] => none
         | c :: r =>
           if c = 'n' then (expectChars ['u', 'l', 'l'] r).map (fun r' => (.null, r'))
           else if c = 't' then (expectChars ['r', 'u', 'e'] r).map (fun r' => (.bool true, r'))
           else if c = 'f' then (expectChars ['a', 'l', 's', 'e'] r).map (fun r' => (.bool false, r'))
           else if c = '"' then
             (parseStrBody [] r).map (fun p => (.str (String.mk p.1), p.2))
           else if c = '[' then
             match skipWs r with
             | c2 :: r2 =>
               if c2 = ']' then some (.list [], r2)
               else
                 (parseElems f (c2 :: r2)).map (fun p => (.list p.1, p.2))
             | [] => none
           else if c = lbrace then
             match skipWs r with
             | c2 :: r2 =>
               if c2 = rbrace then some (.dict [], r2)
               else
                 (parseMembs f (c2 :: r2)).map (fun p => (.dict (dictOfPairs p.1), p.2))
             | [] => none
           else if c = '-' then
             match r with
             | c2 :: r2 =>
               if isDig c2 then
                 let p := grabDigits (c2.toNat - 48) r2
                 if extendsNum p.2 then none else some (.int (-(p.1 : Int)), p.2)
               else none
             | [] => none
           else if isDig c then
             let p := grabDigits (c.toNat - 48) r
             if extendsNum p.2 then none else some (.int (p.1 : Int), p.2)
           else none) := rfl

/-- One-step view of `parseMembs` at successor fuel. -/
theorem parseMembs_stepAll (f : Nat) (s : List Char) :
    parseMembs (f + 1) s
      = (match skipWs s with
         | c :: r =>
           if c = '"' then
             match parseStrBody [] r with
             | none => none
             | some (k, r1) =>
               match skipWs r1 with
               | ':' :: r2 =>
                 (match parseVal f r2 with
                  | none => none
                  | some (v, r3) =>
                    match skipWs r3 with
                    | ',' :: r4 =>
                      Option.map (fun p => ((String.mk k, v) :: p.1, p.2)) (parseMembs f r4)
                    | c2 :: r4 => if c2 = rbrace then some ([(String.mk k, v)], r4) else none
                    | [] => none)
               | _ => none
           else none
         | [] => none) := rfl

/-! ### Parser outputs are well-formed documents -/

set_option maxHeartbeats 1600000 in
theorem parse_wf (f : Nat) :
    (∀ s v r, parseVal f s = some (v, r) → wfVal v = true) ∧
    (∀ s vs r, parseElems f s = some (vs, r) → wfList vs = true) ∧
    (∀ s ps r, parseMembs f s = some (ps, r) → ∀ e ∈ ps, wfVal e.2 = true) := by
  induction f using Nat.strong_induction_on with
  | _ f ih =>
    match f with
    | 0 =>
      refine ⟨?_, ?_, ?_⟩ <;> intro s a r h <;>
        simp [parseVal, parseElems, parseMembs] at h
    | g + 1 =>
      obtain ⟨ihv, ihe, ihm⟩ := ih g (by omega)
      refine ⟨?_, ?_, ?_⟩
      · intro s v r h
        rw [parseVal_step] at h
        rcases hsk : skipWs s with _ | ⟨c, r0⟩
        · rw [hsk] at h
          cases h
        · rw [hsk] at h
          dsimp only [] at h
          split_ifs at h
          · obtain ⟨r', _, h2⟩ := Option.map_eq_some'.mp h
            cases h2
            rfl
          · obtain ⟨r', _, h2⟩ := Option.map_eq_some'.mp h
            cases h2
            rfl
          · obtain ⟨r', _, h2⟩ := Option.map_eq_some'.mp h
            cases h2
            rfl
          · obtain ⟨p, _, h2⟩ := Option.map_eq_some'.mp h
            cases h2
            rfl
          · rcases hsk2 : skipWs r0 with _ | ⟨c2, r2⟩
            · rw [hsk2] at h
              cases h
            · rw [hsk2] at h
              dsimp only [] at h
              split_ifs at h
              · cases h
                rfl
              · obtain ⟨p, hp, h2⟩ := Option.map_eq_some'.mp h
                cases h2
                exact ihe (c2 :: r2) p.1 p.2 hp
          · rcases hsk2 : skipWs r0 with _ | ⟨c2, r2⟩
            · rw [hsk2] at h
              cases h
            · rw [hsk2] at h
              dsimp only [] at h
              split_ifs at h
              · cases h
                rfl
              · obtain ⟨p, hp, h2⟩ := Option.map_eq_some'.mp h
                cases h2
                have hwfps := ihm (c2 :: r2) p.1 p.2 hp
                have hd := dictOfPairs_wf p.1 hwfps
                have hrw : wfVal (.dict (dictOfPairs p.1))
                    = (nodupKeys (dictOfPairs p.1) && wfEntries (dictOfPairs p.1)) := rfl
                rw [hrw, hd.1, hd.2]
                rfl
          · rcases r0 with _ | ⟨c2, r2⟩
            · cases h
            · dsimp only [] at h
              split_ifs at h
              cases h
              rfl
          · cases h
            rfl
      · intro s vs r h
        rw [parseElems_step] at h
        rcases hpv : parseVal g s with _ | ⟨v0, r0⟩
        · rw [hpv] at h
          cases h
        · rw [hpv] at h
          dsimp only [] at h
          have hwv0 := ihv s v0 r0 hpv
          rcases hsk : skipWs r0 with _ | ⟨c2, r2⟩
          · rw [hsk] at h
            cases h
          · rw [hsk] at h
            try dsimp only [] at h
            split at h
            · obtain ⟨p, hp, h2⟩ := Option.map_eq_some'.mp h
              cases h2
              have htail := ihe _ p.1 p.2 hp
              simp [wfList, hwv0, htail]
            · split_ifs at h
              cases h
              simp [wfList, hwv0]
            · cases h
      · intro s ps r h
        rw [parseMembs_stepAll] at h
        rcases hsk : skipWs s with _ | ⟨c, r0⟩
        · rw [hsk] at h
          cases h
        · rw [hsk] at h
          dsimp only [] at h
          split_ifs at h
          rcases hsb : parseStrBody [] r0 with _ | ⟨k, r1⟩
          · rw [hsb] at h
            cases h
          · rw [hsb] at h
            dsimp only [] at h
            rcases hsk2 : skipWs r1 with _ | ⟨c2, r2⟩
            · rw [hsk2] at h
              cases h
            · rw [hsk2] at h
              try dsimp only [] at h
              split at h
              · rename_i x r2b heq
                injection heq with hc2 hr2
                subst hc2
                subst hr2
                rcases hpv : parseVal g r2 with _ | ⟨v0, r3⟩
                · rw [hpv] at h
                  cases h
                · rw [hpv] at h
                  dsimp only [] at h
                  have hwv0 := ihv _ v0 r3 hpv
                  rcases hsk3 : skipWs r3 with _ | ⟨c3, r4⟩
                  · rw [hsk3] at h
                    cases h
                  · rw [hsk3] at h
                    try dsimp only [] at h
                    split at h
                    · obtain ⟨p, hp, h2⟩ := Option.map_eq_some'.mp h
                      cases h2
                      intro e he
                      rcases List.mem_cons.mp he with rfl | he2
                      · exact hwv0
                      · exact ihm _ p.1 p.2 hp e he2
                    · split_ifs at h
                      cases h
                      intro e he
                      rcases List.mem_cons.mp he with rfl | he2
                      · exact hwv0
                      · simp at he2
                    · cases h
              · cases h

/-! ### The claim: persist then load is the identity on loaded documents -/

theorem fsGet_fsSet_self (fs : List (String × String)) (p t : String) :
    fsGet (fsSet fs p t) p = some t := by
  induction fs with
  | nil => simp [fsSet, fsGet]
  | cons e tl ih =>
    obtain ⟨p', t'⟩ := e
    by_cases h : p' = p <;> simp [fsSet, fsGet, h, ih]

theorem jsonLoad_dump (v : PyVal) (hwf : wfVal v = true) :
    jsonLoad (jsonDump v) = some v := by
  have hlen : (serVal v).length < (serVal v).length + 1 := by omega
  have hrt := rt_val v ((serVal v).length + 1) [] hwf hlen rfl
  rw [List.append_nil] at hrt
  unfold jsonLoad jsonDump
  rw [show (String.mk (serVal v)).data = serVal v from rfl, hrt]
  simp [skipWs]

theorem jsonLoad_wf (s : String) (v : PyVal) (h : jsonLoad s = some v) :
    wfVal v = true := by
  unfold jsonLoad at h
  rcases hp : parseVal (s.data.length + 1) s.data with _ | ⟨v0, r⟩
  · rw [hp] at h
    cases h
  · rw [hp] at h
    dsimp only [] at h
    split_ifs at h
    cases h
    exact (parse_wf (s.data.length + 1)).1 s.data _ r hp

/-- C5: a registry document obtained by `read_data_cache_file` from the
registry file, written back with `write_data_cache`, decodes to the same
document on the next load: persist-after-load changes nothing about the
decoded content (the bytes may differ in whitespace, the structure cannot).
Holds because `json.dump` output is parsed back to the identical value for
every document the parser can produce. -/
theorem C5_persist_load_roundtrip (cfg : Config) (w : World) (v : PyVal)
    (h : CacheManager.read_data_cache_file cfg w = .ok v) :
    CacheManager.read_data_cache cfg (CacheManager.write_data_cache cfg w v none)
      = .ok v := by
  unfold CacheManager.read_data_cache_file at h
  rcases hget : fsGet w.fs cfg.cache_fname with _ | text
  · rw [hget] at h
    cases h
  · rw [hget] at h
    dsimp only [] at h
    rcases hload : jsonLoad text with _ | v0
    · rw [hload] at h
      cases h
    · rw [hload] at h
      cases h
      have hwf : wfVal v = true := jsonLoad_wf text v hload
      have hre : jsonLoad (jsonDump v) = some v := jsonLoad_dump v hwf
      unfold CacheManager.read_data_cache CacheManager.read_data_cache_file
        CacheManager.write_data_cache
      simp [fsGet_fsSet_self, hre]

/-- C5 witness: a small registry file survives the persist–load cycle. -/
theorem C5_persist_load_witness :
    CacheManager.read_data_cache cfg0 (CacheManager.write_data_cache cfg0 wFile
        (.dict [("dataset", .dict [("a", .int 12)]), ("k", .list [.null, .str "s"])]) none)
      = .ok (.dict [("dataset", .dict [("a", .int 12)]),
                    ("k", .list [.null, .str "s"])]) :=
  C5_persist_load_roundtrip cfg0 wFile
    (.dict [("dataset", .dict [("a", .int 12)]), ("k", .list [.null, .str "s"])]) rfl
